import Mathlib

/-!
Verification of the AllFamilyAI question-generation service core.

This file gives a shallow embedding, in Lean 4, of the parts of the
repository that the specification talks about:

* domain value objects (`QuestionLevel`, `QADocument`) from
  `app/domain`,
* the ChromaDB-backed vector store (`app/infrastructure/vector/
  chroma_vector_store.py`): similarity probe, range scan, recent-question
  lookups, member deletion, and the embedding-text rendering/parsing pair,
* the use-case layer (`app/application/use_cases`): the bounded
  regeneration loop and the personal / family / family-recent execution
  flows, with an explicit event trace so that ordering properties can be
  stated,
* the members router (`app/presentation/routers/members_router.py`),
* the score sanitizer (`app/utils/score_sanitizer.py`).

Python strings are modelled as `List Char` (`Str` below); Python floats
are modelled as rationals; `datetime` values are modelled by a linear
timestamp together with their date parts.  External capabilities
(embedding provider, LLM) are abstract parameters: an embedding function
`Str → V` and a distance function `V → V → ℚ`, and the question generator
is an oracle indexed by attempt number.
-/

/-- Python strings are modelled as lists of characters. -/
abbrev Str := List Char

/-- Model of a Python `datetime`: a linear timestamp `ts` (used for all
comparisons and sorting) together with the date parts that
`QADocument.get_date_parts` extracts.  ISO serialisation into Chroma
metadata and parsing back (`datetime.fromisoformat`) are modelled as the
identity on this structure. -/
structure PyDateTime where
  ts : ℤ
  year : ℕ
  month : ℕ
  day : ℕ
  deriving Repr, DecidableEq

/-- `app/domain/entities/qa_document.py`: frozen dataclass `QADocument`. -/
structure QADocument where
  family_id : Str
  member_id : Str
  role_label : Str
  question : Str
  answer : Str
  answered_at : PyDateTime
  deriving Repr, DecidableEq

/-- `QADocument.get_date_parts`: `(year, month, day)` of `answered_at`. -/
def QADocument.get_date_parts (d : QADocument) : ℕ × ℕ × ℕ :=
  (d.answered_at.year, d.answered_at.month, d.answered_at.day)

/-- `app/domain/value_objects/question_level.py`: dataclass holding the
level value.  Range checking lives in the checked constructor below,
mirroring `__post_init__`. -/
structure QuestionLevel where
  value : ℤ
  deriving Repr, DecidableEq

/-- The dataclass constructor together with `__post_init__`: building a
`QuestionLevel` raises `ValueError` unless `1 <= value <= 4`. -/
def QuestionLevel.create (value : ℤ) : Except Str QuestionLevel :=
  if 1 ≤ value ∧ value ≤ 4 then .ok ⟨value⟩
  else .error ("질문 난이도는 1-4 사이여야 합니다".toList)

/-- The argument type of `QuestionLevel.from_int` (`level: int | str`). -/
inductive PyIntOrStr where
  | int (n : ℤ)
  | str (s : Str)
  deriving Repr, DecidableEq

/-- Characters that `str.strip()` removes (ASCII whitespace). -/
def isPySpace (c : Char) : Bool :=
  c = ' ' || c = '\t' || c = '\n' || c = '\r' || c = '\x0b' || c = '\x0c'

/-- Strip leading and trailing whitespace, as Python `str.strip()`. -/
def pyStrip (s : Str) : Str :=
  ((s.dropWhile isPySpace).reverse.dropWhile isPySpace).reverse

/-- Numeric value of a list of decimal digit characters. -/
def digitsVal (l : List Char) : ℕ :=
  l.foldl (fun acc c => 10 * acc + (c.toNat - '0'.toNat)) 0

/-- Well-formedness of the digit part accepted by Python `int(str)`:
nonempty, digits with optional single underscores strictly between
digits. -/
def pyDigitsOk (l : List Char) : Bool :=
  (match l with | [] => false | c :: _ => c.isDigit) &&
  (match l.getLast? with | none => false | some c => c.isDigit) &&
  l.all (fun c => c.isDigit || c = '_') &&
  !(decide (['_', '_'] <:+: l))

/-- Model of the Python builtin `int` applied to a string: strip
whitespace, optional sign, then a digit sequence (underscores allowed
between digits); `none` models a raised `ValueError`. -/
def pyIntParse (s : Str) : Option ℤ :=
  let t := pyStrip s
  match t with
  | [] => none
  | c :: rest =>
    let signed : ℤ × List Char :=
      if c = '-' then (-1, rest) else if c = '+' then (1, rest) else (1, t)
    if pyDigitsOk signed.2 then
      some (signed.1 * (digitsVal (signed.2.filter (· ≠ '_')) : ℤ))
    else none

/-- Model of the Python builtin `int` on the `int | str` argument of
`QuestionLevel.from_int`; `none` models `ValueError` / `TypeError`. -/
def pyIntOfAny : PyIntOrStr → Option ℤ
  | .int n => some n
  | .str s => pyIntParse s

/-- `QuestionLevel.from_int`: safe factory.  `int(level)`; in-range
values are kept, out-of-range values and conversion failures yield the
default level 2. -/
def QuestionLevel.from_int (level : PyIntOrStr) : QuestionLevel :=
  match pyIntOfAny level with
  | some k => if 1 ≤ k ∧ k ≤ 4 then ⟨k⟩ else ⟨2⟩
  | none => ⟨2⟩

/-- C5: Question-Level round-trip: the safe factory applied to the integer
value of an in-range level returns that level; out-of-range integers and
inputs on which integer conversion fails yield level 2 (strings that do
convert behave like the converted integer); and the plain checked
constructor accepts exactly the values in [1,4]. -/
theorem questionLevel_roundtrip_and_default :
    (∀ n : ℤ, 1 ≤ n → n ≤ 4 →
      QuestionLevel.from_int (.int (QuestionLevel.mk n).value) = ⟨n⟩) ∧
    (∀ n : ℤ, n < 1 ∨ 4 < n → QuestionLevel.from_int (.int n) = ⟨2⟩) ∧
    (∀ s : Str, pyIntParse s = none → QuestionLevel.from_int (.str s) = ⟨2⟩) ∧
    (∀ s : Str, ∀ k : ℤ, pyIntParse s = some k →
      QuestionLevel.from_int (.str s) = QuestionLevel.from_int (.int k)) ∧
    (∀ n : ℤ, n < 1 ∨ 4 < n → QuestionLevel.create n =
      .error ("질문 난이도는 1-4 사이여야 합니다".toList)) ∧
    (∀ n : ℤ, 1 ≤ n → n ≤ 4 → QuestionLevel.create n = .ok ⟨n⟩) := by
  refine ⟨?_, ?_, ?_, ?_, ?_, ?_⟩
  · intro n h1 h4
    simp [QuestionLevel.from_int, pyIntOfAny, h1, h4]
  · intro n h
    have : ¬ (1 ≤ n ∧ n ≤ 4) := by omega
    simp [QuestionLevel.from_int, pyIntOfAny, this]
  · intro s hs
    simp [QuestionLevel.from_int, pyIntOfAny, hs]
  · intro s k hk
    simp [QuestionLevel.from_int, pyIntOfAny, hk]
  · intro n h
    have : ¬ (1 ≤ n ∧ n ≤ 4) := by omega
    simp [QuestionLevel.create, this]
  · intro n h1 h4
    simp [QuestionLevel.create, h1, h4]

/-- Witness for the round-trip theorem at concrete inputs: level 3
round-trips, 7 and the unparsable string "abc" default to 2, "3" behaves
like 3, and the checked constructor rejects 0 and accepts 4. -/
theorem questionLevel_roundtrip_and_default_witness :
    QuestionLevel.from_int (.int (QuestionLevel.mk 3).value) = ⟨3⟩ ∧
    QuestionLevel.from_int (.int 7) = ⟨2⟩ ∧
    QuestionLevel.from_int (.str "abc".toList) = ⟨2⟩ ∧
    QuestionLevel.from_int (.str "3".toList) = QuestionLevel.from_int (.int 3) ∧
    QuestionLevel.create 0 = .error ("질문 난이도는 1-4 사이여야 합니다".toList) ∧
    QuestionLevel.create 4 = .ok ⟨4⟩ := by
  refine ⟨?_, ?_, ?_, ?_, ?_, ?_⟩
  · exact questionLevel_roundtrip_and_default.1 3 (by decide) (by decide)
  · exact questionLevel_roundtrip_and_default.2.1 7 (by decide)
  · exact questionLevel_roundtrip_and_default.2.2.1 "abc".toList (by decide)
  · exact questionLevel_roundtrip_and_default.2.2.2.1 "3".toList 3 (by decide)
  · exact questionLevel_roundtrip_and_default.2.2.2.2.1 0 (by decide)
  · exact questionLevel_roundtrip_and_default.2.2.2.2.2 4 (by decide) (by decide)

/-! ### Embedding text rendering and parsing (`chroma_vector_store.py`) -/

/-- Decimal digit character for a value below ten. -/
def digitChar (n : ℕ) : Char := Char.ofNat ('0'.toNat + n)

/-- Decimal rendering of a natural number, as Python `str(int)` inside an
f-string. -/
def natDigits (n : ℕ) : List Char :=
  if _h : n < 10 then [digitChar n]
  else natDigits (n / 10) ++ [digitChar (n % 10)]
decreasing_by exact Nat.div_lt_self (by omega) (by omega)

/-- Decimal rendering of an integer. -/
def intStr (n : ℤ) : Str :=
  if n < 0 then '-' :: natDigits n.natAbs else natDigits n.natAbs

/-- The question marker used by `_parse_embedding_text`. -/
def qMarker : Str := "받은 질문:".toList

/-- The answer marker used by `_parse_embedding_text`. -/
def aMarker : Str := "\n답변:".toList

/-- `_to_embedding_text`: the canonical rendered form of a QA document,
`"{Y}년 {M}월 {D}일에 {role}이(가) 받은 질문: {Q}\n답변: {A}"`. -/
def to_embedding_text (doc : QADocument) : Str :=
  let parts := doc.get_date_parts
  natDigits parts.1 ++ "년 ".toList ++
  natDigits parts.2.1 ++ "월 ".toList ++
  natDigits parts.2.2 ++ "일에 ".toList ++
  doc.role_label ++ "이(가) ".toList ++
  qMarker ++ " ".toList ++ doc.question ++
  aMarker ++ " ".toList ++ doc.answer

/-- Python `str.split(sep)` for a nonempty separator: leftmost-first,
non-overlapping matches. -/
def pySplit (sep : Str) : Str → List Str
  | [] => [[]]
  | c :: rest =>
    if hs : sep ≠ [] ∧ sep.isPrefixOf (c :: rest) then
      [] :: pySplit sep (rest.drop (sep.length - 1))
    else
      match pySplit sep rest with
      | [] => [[c]]
      | p :: ps => (c :: p) :: ps
termination_by l => l.length
decreasing_by
  · simp only [List.length_drop, List.length_cons]; omega
  · simp only [List.length_cons]; omega

/-- `_parse_embedding_text`: recover `(question, answer)` from a rendered
document; on missing markers or a failed two-way split it returns the
whole text as the question with an empty answer. -/
def parse_embedding_text (text : Str) : Str × Str :=
  if qMarker <:+: text ∧ aMarker <:+: text then
    let question_part := (pySplit qMarker text).getD 1 []
    match pySplit aMarker question_part with
    | [q, a] => (pyStrip q, pyStrip a)
    | _ => (text, [])
  else (text, [])

unseal pySplit in
example : pySplit "aa".toList "aaa".toList = [[], ['a']] := by decide

unseal pySplit in
example : pySplit "ab".toList "xabyabz".toList =
    [['x'], ['y'], ['z']] := by decide

/-! ### ChromaDB-backed vector store model -/

/-- The two external numeric capabilities: an embedding function and the
distance used by the Chroma index (cosine distance in the deployment). -/
structure EmbedCtx (V : Type) where
  embed : Str → V
  dist : V → V → ℚ

/-- One stored vector: id, embedding, document body and the metadata
written by `ChromaVectorStore.store`. -/
structure ChromaEntry (V : Type) where
  id : Str
  embedding : V
  document : Str
  family_id : Str
  member_id : Str
  role_label : Str
  answered_at : PyDateTime
  deriving DecidableEq

/-- A Chroma collection, in insertion order. -/
abbrev Collection (V : Type) := List (ChromaEntry V)

/-- Reading an entry back as a domain entity: metadata fields plus the
parsed question/answer from the stored document body (shared by all the
read paths of `chroma_vector_store.py`). -/
def entryToDoc {V : Type} (e : ChromaEntry V) : QADocument :=
  let qa := parse_embedding_text e.document
  { family_id := e.family_id, member_id := e.member_id,
    role_label := e.role_label, question := qa.1, answer := qa.2,
    answered_at := e.answered_at }

/-- The vector entry that `ChromaVectorStore.store` appends for a
document: rendered text as the body and the embedding input, id
`"{family_id}_{member_id}_{nowMs}"`, metadata from the document. -/
def storeEntry {V : Type} (ctx : EmbedCtx V) (nowMs : ℤ)
    (doc : QADocument) : ChromaEntry V :=
  { id := doc.family_id ++ "_".toList ++ doc.member_id ++ "_".toList ++
      intStr nowMs,
    embedding := ctx.embed (to_embedding_text doc),
    document := to_embedding_text doc,
    family_id := doc.family_id, member_id := doc.member_id,
    role_label := doc.role_label, answered_at := doc.answered_at }

/-- `ChromaVectorStore.store`: append a new vector for the rendered
document text; `nowMs` models `int(datetime.now().timestamp() * 1000)`.
Transport failures are outside the model, so the success flag is true. -/
def ChromaVectorStore.store {V : Type} (ctx : EmbedCtx V) (nowMs : ℤ)
    (col : Collection V) (doc : QADocument) : Bool × Collection V :=
  (true, col ++ [storeEntry ctx nowMs doc])

/-- `search_by_member`: embed the rendered query document, rank the
vectors of that member by ascending distance, return the first `top_k`
as domain entities. -/
def search_by_member {V : Type} (ctx : EmbedCtx V) (col : Collection V)
    (member_id : Str) (query_doc : QADocument) (top_k : ℕ) : List QADocument :=
  let q := ctx.embed (to_embedding_text query_doc)
  let filtered := col.filter (fun e => e.member_id == member_id)
  let ranked := filtered.mergeSort
    (fun e1 e2 => decide (ctx.dist q e1.embedding ≤ ctx.dist q e2.embedding))
  (ranked.take top_k).map entryToDoc

/-- `search_by_family`: as `search_by_member` with the family filter. -/
def search_by_family {V : Type} (ctx : EmbedCtx V) (col : Collection V)
    (family_id : Str) (query_doc : QADocument) (top_k : ℕ) : List QADocument :=
  let q := ctx.embed (to_embedding_text query_doc)
  let filtered := col.filter (fun e => e.family_id == family_id)
  let ranked := filtered.mergeSort
    (fun e1 e2 => decide (ctx.dist q e1.embedding ≤ ctx.dist q e2.embedding))
  (ranked.take top_k).map entryToDoc

/-- `search_similar_questions` (the novelty probe): embed the raw
question text, query the top-1 vector among the member's vectors, and
return `1 - distance`; 0 when the member has no vectors. -/
def search_similar_questions {V : Type} (ctx : EmbedCtx V) (col : Collection V)
    (question_text member_id : Str) : ℚ :=
  let q := ctx.embed question_text
  let filtered := col.filter (fun e => e.member_id == member_id)
  let dists := (filtered.map (fun e => ctx.dist q e.embedding)).mergeSort
    (fun d1 d2 => decide (d1 ≤ d2))
  match dists.head? with
  | none => 0
  | some d => 1 - d

/-- The novelty probe as the specification words it: embed the raw
question text, take the minimum distance among the member's stored
vectors, return `1 - distance` clamped to the interval [0,1], and 0 when
the member has no vectors.  (Spec-side definition, for comparison with
the code model.) -/
def similarity_spec_clamped {V : Type} (ctx : EmbedCtx V) (col : Collection V)
    (question_text member_id : Str) : ℚ :=
  match (col.filter (fun e => e.member_id == member_id)).map
      (fun e => ctx.dist (ctx.embed question_text) e.embedding) with
  | [] => 0
  | d :: ds => max 0 (min 1 (1 - ds.foldl min d))

/-- The novelty probe as the code actually behaves: as
`similarity_spec_clamped` but without the clamp to [0,1].  (Spec-side
definition for the amended claim.) -/
def similarity_spec_unclamped {V : Type} (ctx : EmbedCtx V) (col : Collection V)
    (question_text member_id : Str) : ℚ :=
  match (col.filter (fun e => e.member_id == member_id)).map
      (fun e => ctx.dist (ctx.embed question_text) e.embedding) with
  | [] => 0
  | d :: ds => 1 - ds.foldl min d

/-- `get_recent_questions_by_member`: full scan of the member's vectors,
in-memory sort by `answered_at` descending (stable), first `limit`. -/
def get_recent_questions_by_member {V : Type} (col : Collection V)
    (member_id : Str) (limit : ℕ) : List QADocument :=
  let results := col.filter (fun e => e.member_id == member_id)
  if results.isEmpty then []
  else
    let entities := results.map entryToDoc
    let sorted := entities.mergeSort
      (fun d1 d2 => decide (d2.answered_at.ts ≤ d1.answered_at.ts))
    sorted.take limit

/-- First occurrences of each key, in order of first appearance (models
iteration over a `defaultdict` built by insertion). -/
def uniqueFirst : List Str → List Str
  | [] => []
  | x :: xs => x :: uniqueFirst (xs.filter (fun y => !(y == x)))
termination_by l => l.length
decreasing_by
  exact Nat.lt_succ_of_le (List.length_filter_le _ _)

/-- `get_recent_questions_by_family`: scan the family's vectors, group by
member in first-appearance order, and take the most recent
`limit_per_member` of each group. -/
def get_recent_questions_by_family {V : Type} (col : Collection V)
    (family_id : Str) (limit_per_member : ℕ) : List QADocument :=
  let results := col.filter (fun e => e.family_id == family_id)
  if results.isEmpty then []
  else
    let all_entities := results.map entryToDoc
    let members := uniqueFirst (all_entities.map (·.member_id))
    members.flatMap (fun m =>
      ((all_entities.filter (fun d => d.member_id == m)).mergeSort
        (fun d1 d2 => decide (d2.answered_at.ts ≤ d1.answered_at.ts))).take
        limit_per_member)

/-- `get_qa_by_family_in_range`: family scan, closed-closed filter on
`answered_at`, ascending sort. -/
def get_qa_by_family_in_range {V : Type} (col : Collection V)
    (family_id : Str) (start stop : PyDateTime) : List QADocument :=
  let results := col.filter (fun e => e.family_id == family_id)
  if results.isEmpty then []
  else
    let entities := (results.map entryToDoc).filter
      (fun d => decide (start.ts ≤ d.answered_at.ts) &&
        decide (d.answered_at.ts ≤ stop.ts))
    entities.mergeSort
      (fun d1 d2 => decide (d1.answered_at.ts ≤ d2.answered_at.ts))

/-- `delete_by_member`: collect the ids of the member's vectors; if there
are none return 0 without touching the collection, otherwise delete those
ids and return how many there were. -/
def delete_by_member {V : Type} (col : Collection V) (member_id : Str) :
    ℕ × Collection V :=
  let ids := (col.filter (fun e => e.member_id == member_id)).map (·.id)
  if ids.isEmpty then (0, col)
  else (ids.length, col.filter (fun e => !(ids.contains e.id)))

/-- Outcome of the `POST members/delete` endpoint. -/
inductive ApiResult where
  | ok (deletedCount : ℕ)
  | httpError (status : ℕ)
  deriving Repr, DecidableEq

/-- `members_router.delete_member_data`: call `delete_by_member`; when the
count is 0 raise `HTTPException(400)`, otherwise answer 200 with the
count. -/
def delete_member_data {V : Type} (col : Collection V) (member_id : Str) :
    ApiResult × Collection V :=
  let r := delete_by_member col member_id
  if r.1 = 0 then (.httpError 400, r.2) else (.ok r.1, r.2)

/-! ### Helper lemmas about sorting and minima -/

theorem foldl_min_le (ds : List ℚ) (d : ℚ) :
    ∀ x, x = d ∨ x ∈ ds → List.foldl min d ds ≤ x := by
  induction ds generalizing d with
  | nil =>
    intro x hx
    rcases hx with h | h
    · simp [h]
    · simp at h
  | cons a as ih =>
    intro x hx
    have hbase : List.foldl min (min d a) as ≤ min d a := ih (min d a) _ (Or.inl rfl)
    rcases hx with h | h
    · subst h
      exact le_trans hbase (min_le_left _ _)
    · rcases List.mem_cons.mp h with h | h
      · subst h
        exact le_trans hbase (min_le_right _ _)
      · exact ih (min d a) x (Or.inr h)

theorem foldl_min_mem (ds : List ℚ) (d : ℚ) :
    List.foldl min d ds = d ∨ List.foldl min d ds ∈ ds := by
  induction ds generalizing d with
  | nil => exact Or.inl rfl
  | cons a as ih =>
    rcases ih (min d a) with h | h
    · rcases min_choice d a with hc | hc
      · left
        show List.foldl min (min d a) as = d
        rw [h, hc]
      · right
        show List.foldl min (min d a) as ∈ a :: as
        rw [h, hc]
        exact List.mem_cons_self _ _
    · exact Or.inr (List.mem_cons_of_mem _ h)

theorem head_mergeSort_min (d : ℚ) (ds : List ℚ) :
    ((d :: ds).mergeSort (fun d1 d2 => decide (d1 ≤ d2))).head? =
      some (List.foldl min d ds) := by
  have hperm := List.mergeSort_perm (d :: ds) (fun d1 d2 => decide (d1 ≤ d2))
  have hsort := @List.sorted_mergeSort ℚ (fun d1 d2 => decide (d1 ≤ d2))
    (fun x y z h1 h2 => by
      simp only [decide_eq_true_eq] at *
      exact le_trans h1 h2)
    (fun x y => by simpa using le_total x y) (d :: ds)
  cases hm : (d :: ds).mergeSort (fun d1 d2 => decide (d1 ≤ d2)) with
  | nil =>
    have := hperm.length_eq
    simp [hm] at this
  | cons h t =>
    have hmem : h ∈ d :: ds := by
      have : h ∈ (d :: ds).mergeSort (fun d1 d2 => decide (d1 ≤ d2)) := by
        simp [hm]
      simpa using this
    have hle : h ≤ List.foldl min d ds := by
      rcases foldl_min_mem ds d with hc | hc
      · rcases foldl_min_mem ds d with _ | _ <;>
        · have hm2 : List.foldl min d ds ∈ (d :: ds).mergeSort
              (fun d1 d2 => decide (d1 ≤ d2)) := by
            simp [hc]
          rw [hm] at hm2
          rcases List.mem_cons.mp hm2 with he | he
          · exact le_of_eq he.symm
          · have := List.rel_of_pairwise_cons (hm ▸ hsort) he
            simpa using this
      · have hm2 : List.foldl min d ds ∈ (d :: ds).mergeSort
            (fun d1 d2 => decide (d1 ≤ d2)) := by
          simp [List.mem_cons_of_mem _ hc]
        rw [hm] at hm2
        rcases List.mem_cons.mp hm2 with he | he
        · exact le_of_eq he.symm
        · have := List.rel_of_pairwise_cons (hm ▸ hsort) he
          simpa using this
    have hge : List.foldl min d ds ≤ h := by
      rcases List.mem_cons.mp hmem with he | he
      · exact foldl_min_le ds d h (Or.inl he)
      · exact foldl_min_le ds d h (Or.inr he)
    simp [le_antisymm hle hge]

/-! ### C2: the novelty probe -/

/-- C2 (amended): `search_similar_questions` embeds the raw question
text, takes the top-1 (minimum-distance) vector among the vectors of the
given member, and returns `1 - distance` without clamping; it returns 0
when the member has no stored vectors. -/
theorem search_similar_questions_eq_unclamped_spec {V : Type}
    (ctx : EmbedCtx V) (col : Collection V) (question_text member_id : Str) :
    search_similar_questions ctx col question_text member_id =
      similarity_spec_unclamped ctx col question_text member_id := by
  unfold search_similar_questions similarity_spec_unclamped
  cases hcol : col.filter (fun e => e.member_id == member_id) with
  | nil => simp [hcol]
  | cons e es =>
    simp only [hcol, List.map_cons]
    rw [head_mergeSort_min]

/-- A one-entry collection owned by member `m`, paired with a context
whose distance function yields 3/2 (a legal cosine distance) for every
query; used to exhibit the missing clamp in the probe. -/
def probeCtx : EmbedCtx Unit :=
  { embed := fun _ => (), dist := fun _ _ => mkRat 3 2 }

/-- The collection holding the single far-away vector of member `m`. -/
def probeCol : Collection Unit :=
  [{ id := "F_m_1".toList, embedding := (), document := "doc".toList,
     family_id := "F".toList, member_id := "m".toList,
     role_label := "아빠".toList,
     answered_at := { ts := 0, year := 2026, month := 1, day := 1 } }]

/-- C2 counterexample: with one stored vector at cosine distance 3/2, the
probe returns -1/2, a value outside [0,1]; the clamped value the claim
describes would be 0.  The code therefore does not clamp `1 - distance`
to [0,1]. -/
theorem search_similar_questions_not_clamped :
    search_similar_questions probeCtx probeCol "q".toList "m".toList =
      -(1 / 2 : ℚ) ∧
    similarity_spec_clamped probeCtx probeCol "q".toList "m".toList = 0 ∧
    (-(1 / 2 : ℚ)) ≠ 0 := by
  refine ⟨?_, ?_, by norm_num⟩
  · rw [search_similar_questions_eq_unclamped_spec]
    simp [similarity_spec_unclamped, probeCtx, probeCol, Rat.mkRat_eq_div]
    norm_num
  · simp [similarity_spec_clamped, probeCtx, probeCol, Rat.mkRat_eq_div]
    norm_num

/-! ### C4: the closed range scan -/

/-- C4: `get_qa_by_family_in_range` returns exactly the stored records of
the family whose `answered_at` lies in the closed interval `[a, b]`
(as a permutation of the filtered scan), sorted in ascending
`answered_at` order. -/
theorem get_qa_by_family_in_range_exact {V : Type} (col : Collection V)
    (f : Str) (a b : PyDateTime) (_hab : a.ts ≤ b.ts) :
    (get_qa_by_family_in_range col f a b).Perm
      (((col.filter (fun e => e.family_id == f)).map entryToDoc).filter
        (fun d => decide (a.ts ≤ d.answered_at.ts) &&
          decide (d.answered_at.ts ≤ b.ts))) ∧
    (get_qa_by_family_in_range col f a b).Sorted
      (fun d1 d2 => d1.answered_at.ts ≤ d2.answered_at.ts) := by
  clear _hab
  unfold get_qa_by_family_in_range
  by_cases hcol : (col.filter (fun e => e.family_id == f)).isEmpty
  · have hnil : col.filter (fun e => e.family_id == f) = [] :=
      List.isEmpty_iff.mp hcol
    simp [hcol, hnil, List.Sorted]
  · simp only [hcol, if_false, Bool.false_eq_true]
    constructor
    · exact List.mergeSort_perm _ _
    · have hsorted := @List.sorted_mergeSort QADocument
        (fun (d1 d2 : QADocument) =>
          decide (d1.answered_at.ts ≤ d2.answered_at.ts))
        (fun x y z h1 h2 => by
          simp only [decide_eq_true_eq] at *
          omega)
        (fun x y => by
          simp only [Bool.or_eq_true, decide_eq_true_eq]
          omega)
        (((col.filter (fun e => e.family_id == f)).map entryToDoc).filter
          (fun d => decide (a.ts ≤ d.answered_at.ts) &&
            decide (d.answered_at.ts ≤ b.ts)))
      exact hsorted.imp (by simp only [decide_eq_true_eq]; exact fun h => h)

/-- A two-record collection for the range-scan witness: family `F` with
timestamps 5 and 1. -/
def rangeCol : Collection Unit :=
  [{ id := "F_m1_5".toList, embedding := (), document := "d1".toList,
     family_id := "F".toList, member_id := "m1".toList,
     role_label := "아빠".toList,
     answered_at := { ts := 5, year := 2026, month := 1, day := 5 } },
   { id := "F_m2_1".toList, embedding := (), document := "d2".toList,
     family_id := "F".toList, member_id := "m2".toList,
     role_label := "엄마".toList,
     answered_at := { ts := 1, year := 2026, month := 1, day := 1 } }]

/-- Witness for the range-scan theorem: a concrete two-record family
collection and the window `[0, 10]`. -/
theorem get_qa_by_family_in_range_exact_witness :
    (0 : ℤ) ≤ 10 ∧
    ((get_qa_by_family_in_range rangeCol "F".toList
        { ts := 0, year := 2026, month := 1, day := 1 }
        { ts := 10, year := 2026, month := 1, day := 10 }).Perm
      (((rangeCol.filter (fun e => e.family_id == "F".toList)).map
          entryToDoc).filter
        (fun d => decide ((0 : ℤ) ≤ d.answered_at.ts) &&
          decide (d.answered_at.ts ≤ (10 : ℤ)))) ∧
    (get_qa_by_family_in_range rangeCol "F".toList
        { ts := 0, year := 2026, month := 1, day := 1 }
        { ts := 10, year := 2026, month := 1, day := 10 }).Sorted
      (fun d1 d2 => d1.answered_at.ts ≤ d2.answered_at.ts)) :=
  ⟨by decide,
    get_qa_by_family_in_range_exact rangeCol "F".toList
      { ts := 0, year := 2026, month := 1, day := 1 }
      { ts := 10, year := 2026, month := 1, day := 10 } (by decide)⟩

/-! ### C7: member deletion -/

/-- C7: with distinct vector ids, `delete_by_member` returns exactly the
number of vectors owned by the member and removes exactly those vectors;
when that count is 0 the `members/delete` endpoint answers HTTP 400 and
the collection is unchanged. -/
theorem delete_by_member_spec {V : Type} (col : Collection V) (m : Str)
    (hids : (col.map (fun e => e.id)).Nodup) :
    (delete_by_member col m).1 =
      (col.filter (fun e => e.member_id == m)).length ∧
    (delete_by_member col m).2 = col.filter (fun e => !(e.member_id == m)) ∧
    ((col.filter (fun e => e.member_id == m)).length = 0 →
      delete_member_data col m = (.httpError 400, col)) := by
  by_cases hempty :
      ((col.filter (fun e => e.member_id == m)).map (fun e => e.id)).isEmpty
  · have hnil : col.filter (fun e => e.member_id == m) = [] :=
      List.map_eq_nil_iff.mp (List.isEmpty_iff.mp hempty)
    have hall : ∀ e ∈ col, (e.member_id == m) = false := by
      intro e he
      by_contra hne
      have : e ∈ col.filter (fun e => e.member_id == m) :=
        List.mem_filter.mpr ⟨he, by simpa using hne⟩
      simp [hnil] at this
    refine ⟨?_, ?_, ?_⟩
    · simp [delete_by_member, hempty, hnil]
    · have hself : col.filter (fun e => !(e.member_id == m)) = col :=
        List.filter_eq_self.mpr (fun e he => by simp [hall e he])
      simp [delete_by_member, hempty, hself]
    · intro _
      simp [delete_member_data, delete_by_member, hempty, hnil]
  · have hinj := List.inj_on_of_nodup_map hids
    have hcongr : ∀ e ∈ col,
        (!(((col.filter (fun e => e.member_id == m)).map
          (fun e => e.id)).contains e.id)) = (!(e.member_id == m)) := by
      intro e he
      congr 1
      by_cases hm : (e.member_id == m) = true
      · have hef : e ∈ col.filter (fun e => e.member_id == m) :=
          List.mem_filter.mpr ⟨he, hm⟩
        have hmem : e.id ∈ (col.filter (fun e => e.member_id == m)).map
            (fun e => e.id) := List.mem_map_of_mem _ hef
        rw [hm]
        exact List.contains_iff_exists_mem_beq.mpr ⟨e.id, hmem, by simp⟩
      · have hm0 : (e.member_id == m) = false := by simpa using hm
        rw [hm0]
        rw [Bool.eq_false_iff]
        intro hc
        rcases List.contains_iff_exists_mem_beq.mp hc with ⟨idv, hidv, hbeq⟩
        rcases List.mem_map.mp hidv with ⟨e2, he2, hid⟩
        have he2col : e2 ∈ col := (List.mem_filter.mp he2).1
        have he2m : (e2.member_id == m) = true := (List.mem_filter.mp he2).2
        have hideq : e2.id = e.id := by
          have : e.id = idv := by simpa using hbeq
          simp only [← hid] at this
          exact this.symm
        have : e2 = e := hinj he2col he hideq
        subst this
        exact hm he2m
    refine ⟨?_, ?_, ?_⟩
    · simp [delete_by_member, hempty]
    · simp only [delete_by_member, hempty, Bool.false_eq_true, if_false]
      exact List.filter_congr hcongr
    · intro hlen
      exfalso
      have : col.filter (fun e => e.member_id == m) = [] :=
        List.length_eq_zero.mp hlen
      simp [this] at hempty

/-- Witness for the deletion theorem: deleting an unknown member from the
concrete two-record collection reports 0, answers 400 and leaves the
collection unchanged. -/
theorem delete_by_member_spec_witness :
    ((rangeCol.map (fun e => e.id)).Nodup) ∧
    ((delete_by_member rangeCol "mX".toList).1 =
      (rangeCol.filter (fun e => e.member_id == "mX".toList)).length ∧
    (delete_by_member rangeCol "mX".toList).2 =
      rangeCol.filter (fun e => !(e.member_id == "mX".toList)) ∧
    ((rangeCol.filter (fun e => e.member_id == "mX".toList)).length = 0 →
      delete_member_data rangeCol "mX".toList = (.httpError 400, rangeCol))) :=
  ⟨by decide, delete_by_member_spec rangeCol "mX".toList (by decide)⟩

/-! ### C8: the score sanitizer (`app/utils/score_sanitizer.py`) -/

/-- Python `round(x, 2)` rounds half to even; this is the integer version
applied after scaling by 100. -/
def roundHalfEven (q : ℚ) : ℤ :=
  if q - ⌊q⌋ < 1 / 2 then ⌊q⌋
  else if 1 / 2 < q - ⌊q⌋ then ⌊q⌋ + 1
  else if ⌊q⌋ % 2 = 0 then ⌊q⌋ else ⌊q⌋ + 1

/-- Python `round(x, 2)` on the rational model. -/
def pyRound2 (q : ℚ) : ℚ := (roundHalfEven (q * 100) : ℚ) / 100

/-- The raw emotion sub-object: each recognized key is present with a
numeric value, or absent / unconvertible (`none`). -/
structure EmotionIn where
  joy : Option ℚ
  sadness : Option ℚ
  anger : Option ℚ
  fear : Option ℚ
  neutral : Option ℚ
  deriving Repr, DecidableEq

/-- The raw model output fed to `ScoreSanitizer.sanitize`: for each
recognized key, `none` models a missing key or a failed `float()` /
`int()` conversion; `emotion = none` models a missing or non-dict
emotion entry. -/
structure RawScores where
  sentiment : Option ℚ
  emotion : Option EmotionIn
  relevance_to_question : Option ℚ
  relevance_to_category : Option ℚ
  toxicity : Option ℚ
  length : Option ℤ
  keywords : Option (List Str)
  deriving Repr, DecidableEq

/-- The sanitized output object; absent keys are `none`. -/
structure SanitizedScores where
  sentiment : Option ℚ
  emotion : Option EmotionIn
  relevance_to_question : Option ℚ
  relevance_to_category : Option ℚ
  toxicity : Option ℚ
  length : Option ℤ
  keywords : Option (List Str)
  deriving Repr, DecidableEq

/-- `ScoreSanitizer.sanitize`: clamp every numeric score to its declared
range and round to two decimals; a non-dict input yields the empty
object; an emotion object whose five recognized keys are all absent is
dropped; keywords pass through. -/
def ScoreSanitizer.sanitize (scores : Option RawScores) : SanitizedScores :=
  match scores with
  | none => ⟨none, none, none, none, none, none, none⟩
  | some s =>
    let sent := s.sentiment.map (fun v => pyRound2 (max (-1) (min 1 v)))
    let emo : Option EmotionIn :=
      match s.emotion with
      | none => none
      | some e =>
        let out : EmotionIn :=
          { joy := e.joy.map (fun v => pyRound2 (max 0 (min 1 v))),
            sadness := e.sadness.map (fun v => pyRound2 (max 0 (min 1 v))),
            anger := e.anger.map (fun v => pyRound2 (max 0 (min 1 v))),
            fear := e.fear.map (fun v => pyRound2 (max 0 (min 1 v))),
            neutral := e.neutral.map (fun v => pyRound2 (max 0 (min 1 v))) }
        if out = ⟨none, none, none, none, none⟩ then none else some out
    { sentiment := sent,
      emotion := emo,
      relevance_to_question :=
        s.relevance_to_question.map (fun v => pyRound2 (max 0 (min 1 v))),
      relevance_to_category :=
        s.relevance_to_category.map (fun v => pyRound2 (max 0 (min 1 v))),
      toxicity := s.toxicity.map (fun v => pyRound2 (max 0 (min 1 v))),
      length := s.length.map (fun L => if L < 0 then 0 else L),
      keywords := s.keywords }

/-- A rational with at most two decimal places. -/
def isCenti (x : ℚ) : Prop := ∃ k : ℤ, x = (k : ℚ) / 100

theorem roundHalfEven_bounds (q : ℚ) :
    (⌊q⌋ : ℤ) ≤ roundHalfEven q ∧
    (roundHalfEven q = ⌊q⌋ ∨ (⌊q⌋ : ℚ) + 1 / 2 ≤ q ∧ roundHalfEven q = ⌊q⌋ + 1) := by
  unfold roundHalfEven
  split_ifs with h1 h2 h3
  · exact ⟨le_refl _, Or.inl rfl⟩
  · exact ⟨by omega, Or.inr ⟨by linarith, rfl⟩⟩
  · exact ⟨le_refl _, Or.inl rfl⟩
  · refine ⟨by omega, Or.inr ⟨?_, rfl⟩⟩
    have : q - (⌊q⌋ : ℚ) = 1 / 2 := le_antisymm (not_lt.mp h2) (not_lt.mp h1)
    linarith

theorem pyRound2_bounds (lo hi : ℤ) (v : ℚ)
    (hlo : (lo : ℚ) ≤ v) (hhi : v ≤ (hi : ℚ)) :
    (lo : ℚ) ≤ pyRound2 v ∧ pyRound2 v ≤ (hi : ℚ) ∧ isCenti (pyRound2 v) := by
  obtain ⟨hlow, hup⟩ := roundHalfEven_bounds (v * 100)
  have hfl : (lo * 100 : ℤ) ≤ ⌊v * 100⌋ := by
    have : ((lo * 100 : ℤ) : ℚ) ≤ v * 100 := by push_cast; nlinarith
    exact Int.le_floor.mpr this
  have hn_lo : (lo * 100 : ℤ) ≤ roundHalfEven (v * 100) := le_trans hfl hlow
  have hn_hi : roundHalfEven (v * 100) ≤ (hi * 100 : ℤ) := by
    rcases hup with he | ⟨hhalf, he⟩
    · rw [he]
      have h1 : (⌊v * 100⌋ : ℚ) ≤ ((hi * 100 : ℤ) : ℚ) := by
        have h2 : (⌊v * 100⌋ : ℚ) ≤ v * 100 := Int.floor_le _
        have h3 : v * 100 ≤ ((hi * 100 : ℤ) : ℚ) := by push_cast; nlinarith
        linarith
      exact_mod_cast h1
    · rw [he]
      have h3 : v * 100 ≤ ((hi * 100 : ℤ) : ℚ) := by push_cast; nlinarith
      have hlt : (⌊v * 100⌋ : ℚ) < ((hi * 100 : ℤ) : ℚ) := by linarith
      have : ⌊v * 100⌋ < (hi * 100 : ℤ) := by exact_mod_cast hlt
      omega
  refine ⟨?_, ?_, ⟨roundHalfEven (v * 100), rfl⟩⟩
  · unfold pyRound2
    rw [le_div_iff₀ (by norm_num : (0 : ℚ) < 100)]
    have : ((lo * 100 : ℤ) : ℚ) ≤ (roundHalfEven (v * 100) : ℚ) := by
      exact_mod_cast hn_lo
    push_cast at this ⊢
    linarith
  · unfold pyRound2
    rw [div_le_iff₀ (by norm_num : (0 : ℚ) < 100)]
    have : ((roundHalfEven (v * 100) : ℤ) : ℚ) ≤ ((hi * 100 : ℤ) : ℚ) := by
      exact_mod_cast hn_hi
    push_cast at this ⊢
    linarith

theorem clamped_round_in_01 (v : ℚ) :
    0 ≤ pyRound2 (max 0 (min 1 v)) ∧ pyRound2 (max 0 (min 1 v)) ≤ 1 ∧
      isCenti (pyRound2 (max 0 (min 1 v))) := by
  have h := pyRound2_bounds 0 1 (max 0 (min 1 v))
    (by push_cast; exact le_max_left _ _)
    (by push_cast
        exact max_le (by norm_num) (min_le_left _ _))
  simpa using h

/-- C8: every numeric score in the sanitized output is clamped to its
declared range and rounded to two decimals: sentiment lies in [-1,1],
each emotion component and the relevance/toxicity scores lie in [0,1],
all with at most two decimal places, and length is a non-negative
integer. -/
theorem score_sanitizer_ranges (s : RawScores) :
    (∀ x, (ScoreSanitizer.sanitize (some s)).sentiment = some x →
      -1 ≤ x ∧ x ≤ 1 ∧ isCenti x) ∧
    (∀ e, (ScoreSanitizer.sanitize (some s)).emotion = some e →
      (∀ x, e.joy = some x → 0 ≤ x ∧ x ≤ 1 ∧ isCenti x) ∧
      (∀ x, e.sadness = some x → 0 ≤ x ∧ x ≤ 1 ∧ isCenti x) ∧
      (∀ x, e.anger = some x → 0 ≤ x ∧ x ≤ 1 ∧ isCenti x) ∧
      (∀ x, e.fear = some x → 0 ≤ x ∧ x ≤ 1 ∧ isCenti x) ∧
      (∀ x, e.neutral = some x → 0 ≤ x ∧ x ≤ 1 ∧ isCenti x)) ∧
    (∀ x, (ScoreSanitizer.sanitize (some s)).relevance_to_question = some x →
      0 ≤ x ∧ x ≤ 1 ∧ isCenti x) ∧
    (∀ x, (ScoreSanitizer.sanitize (some s)).relevance_to_category = some x →
      0 ≤ x ∧ x ≤ 1 ∧ isCenti x) ∧
    (∀ x, (ScoreSanitizer.sanitize (some s)).toxicity = some x →
      0 ≤ x ∧ x ≤ 1 ∧ isCenti x) ∧
    (∀ n, (ScoreSanitizer.sanitize (some s)).length = some n → 0 ≤ n) := by
  refine ⟨?_, ?_, ?_, ?_, ?_, ?_⟩
  · intro x hx
    simp only [ScoreSanitizer.sanitize, Option.map_eq_some'] at hx
    rcases hx with ⟨v, _, hv⟩
    have h := pyRound2_bounds (-1) 1 (max (-1) (min 1 v))
      (by push_cast; exact le_max_left _ _)
      (by push_cast; exact max_le (by norm_num) (min_le_left _ _))
    subst hv
    simpa using h
  · intro e he
    simp only [ScoreSanitizer.sanitize] at he
    cases hsemo : s.emotion with
    | none =>
      rw [hsemo] at he
      simp at he
    | some ein =>
      rw [hsemo] at he
      dsimp only at he
      split_ifs at he with hz
      have he2 : _ = e := Option.some_injective _ he
      subst he2
      refine ⟨?_, ?_, ?_, ?_, ?_⟩ <;>
        · intro x hx
          simp only [Option.map_eq_some'] at hx
          rcases hx with ⟨v, _, hv⟩
          exact hv ▸ clamped_round_in_01 v
  · intro x hx
    simp only [ScoreSanitizer.sanitize, Option.map_eq_some'] at hx
    rcases hx with ⟨v, _, hv⟩
    exact hv ▸ clamped_round_in_01 v
  · intro x hx
    simp only [ScoreSanitizer.sanitize, Option.map_eq_some'] at hx
    rcases hx with ⟨v, _, hv⟩
    exact hv ▸ clamped_round_in_01 v
  · intro x hx
    simp only [ScoreSanitizer.sanitize, Option.map_eq_some'] at hx
    rcases hx with ⟨v, _, hv⟩
    exact hv ▸ clamped_round_in_01 v
  · intro n hn
    simp only [ScoreSanitizer.sanitize, Option.map_eq_some'] at hn
    rcases hn with ⟨L, _, hL⟩
    subst hL
    split_ifs <;> omega

/-- Witness for the sanitizer theorem at a concrete raw object: a
sentiment of 7/5 is clamped and rounded to 1, and a length of -5 is
clamped to 0. -/
def rawScores0 : RawScores :=
  { sentiment := some (7 / 5),
    emotion := some ⟨some (3 / 10), none, none, none, some 2⟩,
    relevance_to_question := some (-(1 / 4)),
    relevance_to_category := none,
    toxicity := some (999 / 1000),
    length := some (-5),
    keywords := none }

theorem score_sanitizer_ranges_witness :
    ((-1 : ℚ) ≤ 1 ∧ (1 : ℚ) ≤ 1 ∧ isCenti 1) ∧ (0 ≤ (0 : ℤ)) :=
  ⟨(score_sanitizer_ranges rawScores0).1 1 (by
      simp only [ScoreSanitizer.sanitize, rawScores0]
      norm_num [pyRound2, roundHalfEven]),
   (score_sanitizer_ranges rawScores0).2.2.2.2.2 0 (by
      simp only [ScoreSanitizer.sanitize, rawScores0]
      norm_num)⟩

/-! ### The use-case layer (`app/application/use_cases`) -/

/-- Static use-case configuration: the shared capabilities plus
`MAX_REGENERATION` and `SIMILARITY_THRESHOLD` (loaded from settings; the
spec defaults are 3 and 0.9), and the clock used for vector ids. -/
structure UseCaseCtx (V : Type) where
  ec : EmbedCtx V
  maxRegeneration : ℕ
  similarityThreshold : ℚ
  nowMs : ℤ

/-- Observable events of one use-case execution, in call order. -/
inductive Ev where
  | recentByMember (member_id : Str)
  | searchMember (member_id : Str)
  | searchFamily (family_id : Str)
  | recentByFamily (family_id : Str)
  | generate (question : Str)
  | probe (question : Str) (similarity : ℚ)
  | store (doc : QADocument)
  deriving Repr, DecidableEq

/-- Is the event a generator invocation? -/
def Ev.isGenerate : Ev → Bool
  | .generate _ => true
  | _ => false

/-- Is the event a store call? -/
def Ev.isStore : Ev → Bool
  | .store _ => true
  | _ => false

/-- Is the event a RAG retrieval call (`search_by_member` or
`search_by_family`)? -/
def Ev.isRagSearch : Ev → Bool
  | .searchMember _ => true
  | .searchFamily _ => true
  | _ => false

/-- The probed similarity carried by a probe event. -/
def Ev.probedSim : Ev → Option ℚ
  | .probe _ s => some s
  | _ => none

/-- The retry loop shared by `_generate_with_retry` and
`_generate_for_target_with_retry`: for `attempt` in
`range(MAX_REGENERATION)`, generate, probe the similarity, accept when it
is below the threshold, set the warning flag and stop on the last
attempt, otherwise count a regeneration and continue.  The generator is
an oracle indexed by attempt number; the result is `none` exactly when
the loop body never ran.  The event list records the generator and probe
calls in order. -/
def generateWithRetryAux {V : Type} (ctx : UseCaseCtx V)
    (gen : ℕ → Str × QuestionLevel) (probe : Str → ℚ) (attempt regen : ℕ) :
    Option (Str × QuestionLevel × ℕ × Bool) × List Ev :=
  if _h : attempt < ctx.maxRegeneration then
    let g := gen attempt
    let s := probe g.1
    if s < ctx.similarityThreshold then
      (some (g.1, g.2, regen, false), [.generate g.1, .probe g.1 s])
    else if attempt = ctx.maxRegeneration - 1 then
      (some (g.1, g.2, regen, true), [.generate g.1, .probe g.1 s])
    else
      let rest := generateWithRetryAux ctx gen probe (attempt + 1) (regen + 1)
      (rest.1, .generate g.1 :: .probe g.1 s :: rest.2)
  else (none, [])
termination_by ctx.maxRegeneration - attempt
decreasing_by omega

/-- Entry point of the retry loop. -/
def generate_with_retry {V : Type} (ctx : UseCaseCtx V)
    (gen : ℕ → Str × QuestionLevel) (probe : Str → ℚ) :
    Option (Str × QuestionLevel × ℕ × Bool) × List Ev :=
  generateWithRetryAux ctx gen probe 0 0

/-- Which RAG use case is executing (the template-method subclass). -/
inductive RagVariant where
  | personal
  | family
  deriving Repr, DecidableEq

/-- `GeneratePersonalQuestionInput` (also used by the family variant). -/
structure GenQuestionInput where
  family_id : Str
  member_id : Str
  role_label : Str
  base_question : Str
  base_answer : Str
  answered_at : PyDateTime
  deriving Repr, DecidableEq

/-- The output DTO fields common to the personal and family variants
(question, level and the response metadata). -/
structure GenQuestionOutput where
  question : Str
  level : QuestionLevel
  rag_count : ℕ
  member_id : Str
  family_id : Str
  regeneration_count : ℕ
  similarity_warning : Bool
  deriving Repr, DecidableEq

/-- `RAGQuestionUseCase._get_role_label`: the role label of the most
recent stored record of the member, `none` when the member has no
records or the lookup raised (`lookupFails`). -/
def get_role_label {V : Type} (col : Collection V) (member_id : Str)
    (lookupFails : Bool) : Option Str :=
  if lookupFails then none
  else
    match get_recent_questions_by_member col member_id 1 with
    | [] => none
    | d :: _ => some d.role_label

/-- The `if not role_label: role_label = "멤버"` default in
`RAGQuestionUseCase.execute` (both `None` and the empty string are
falsy). -/
def resolve_role_label (rl : Option Str) : Str :=
  match rl with
  | none => "멤버".toList
  | some r => if r = [] then "멤버".toList else r

/-- `RAGQuestionUseCase._create_base_qa`. -/
def create_base_qa (inp : GenQuestionInput) (role_label : Str) : QADocument :=
  { family_id := inp.family_id, member_id := inp.member_id,
    role_label := role_label, question := inp.base_question,
    answer := inp.base_answer, answered_at := inp.answered_at }

/-- `RAGQuestionUseCase.execute`: resolve the role label, build the base
QA, retrieve the RAG context (by member for the personal variant, by
family for the family variant), run the retry loop with the novelty
probe aimed at the answering member, store the base QA, and build the
output DTO.  Returns the output (none when the loop body never ran and
the Python code raises), the new collection, and the event trace. -/
def RAGQuestionUseCase.execute {V : Type} (variant : RagVariant)
    (ctx : UseCaseCtx V) (col : Collection V) (inp : GenQuestionInput)
    (gen : ℕ → Str × QuestionLevel) (lookupFails : Bool) :
    Option GenQuestionOutput × Collection V × List Ev :=
  let role_label := resolve_role_label (get_role_label col inp.member_id lookupFails)
  let base_qa := create_base_qa inp role_label
  let rag_context :=
    match variant with
    | .personal => search_by_member ctx.ec col inp.member_id base_qa 5
    | .family => search_by_family ctx.ec col inp.family_id base_qa 10
  let searchEv :=
    match variant with
    | .personal => Ev.searchMember inp.member_id
    | .family => Ev.searchFamily inp.family_id
  let loop := generate_with_retry ctx gen
    (fun q => search_similar_questions ctx.ec col q inp.member_id)
  match loop.1 with
  | none => (none, col, Ev.recentByMember inp.member_id :: searchEv :: loop.2)
  | some (q, level, regen, warn) =>
    let stored := ChromaVectorStore.store ctx.ec ctx.nowMs col base_qa
    (some { question := q, level := level, rag_count := rag_context.length,
            member_id := inp.member_id, family_id := inp.family_id,
            regeneration_count := regen, similarity_warning := warn },
     stored.2,
     Ev.recentByMember inp.member_id :: searchEv ::
       (loop.2 ++ [Ev.store base_qa]))

/-- `FamilyRecentQuestionInput`. -/
structure FamilyRecentInput where
  family_id : Str
  target_member_id : Str
  target_role_label : Str
  member_ids : List Str
  deriving Repr, DecidableEq

/-- `FamilyRecentQuestionOutput` fields. -/
structure FamilyRecentOutput where
  question : Str
  level : QuestionLevel
  context_count : ℕ
  target_member_id : Str
  family_id : Str
  regeneration_count : ℕ
  similarity_warning : Bool
  deriving Repr, DecidableEq

/-- `FamilyRecentQuestionUseCase.execute`: fetch the per-member recent
windows of the family, run the retry loop with the probe aimed at the
target member, and return the output without storing anything. -/
def FamilyRecentQuestionUseCase.execute {V : Type} (ctx : UseCaseCtx V)
    (col : Collection V) (inp : FamilyRecentInput)
    (gen : ℕ → Str × QuestionLevel) :
    Option FamilyRecentOutput × Collection V × List Ev :=
  let context := get_recent_questions_by_family col inp.family_id 3
  let loop := generate_with_retry ctx gen
    (fun q => search_similar_questions ctx.ec col q inp.target_member_id)
  match loop.1 with
  | none => (none, col, Ev.recentByFamily inp.family_id :: loop.2)
  | some (q, level, regen, warn) =>
    (some { question := q, level := level, context_count := context.length,
            target_member_id := inp.target_member_id,
            family_id := inp.family_id, regeneration_count := regen,
            similarity_warning := warn },
     col, Ev.recentByFamily inp.family_id :: loop.2)

/-! ### C1: the novelty controller -/

/-- Number of generator invocations recorded in a trace. -/
def genCount (tr : List Ev) : ℕ := (tr.filter Ev.isGenerate).length

/-- The probed similarities recorded in a trace, in order. -/
def probedSims (tr : List Ev) : List ℚ := tr.filterMap Ev.probedSim

theorem retryAux_correct {V : Type} (ctx : UseCaseCtx V)
    (gen : ℕ → Str × QuestionLevel) (probe : Str → ℚ) :
    ∀ k attempt regen, ctx.maxRegeneration - attempt = k →
    attempt < ctx.maxRegeneration →
    ∃ q level warn,
      (generateWithRetryAux ctx gen probe attempt regen).1 =
        some (q, level,
          regen +
            (genCount (generateWithRetryAux ctx gen probe attempt regen).2 - 1),
          warn) ∧
      1 ≤ genCount (generateWithRetryAux ctx gen probe attempt regen).2 ∧
      genCount (generateWithRetryAux ctx gen probe attempt regen).2 ≤
        ctx.maxRegeneration - attempt ∧
      (warn = true ↔
        ∀ s ∈ probedSims (generateWithRetryAux ctx gen probe attempt regen).2,
          ctx.similarityThreshold ≤ s) := by
  intro k
  induction k using Nat.strong_induction_on with
  | _ k ih =>
    intro attempt regen hk hlt
    rw [generateWithRetryAux]
    rw [dif_pos hlt]
    have hgc1 : genCount [Ev.generate (gen attempt).1,
        Ev.probe (gen attempt).1 (probe (gen attempt).1)] = 1 := by
      simp [genCount, Ev.isGenerate]
    have hps1 : probedSims [Ev.generate (gen attempt).1,
        Ev.probe (gen attempt).1 (probe (gen attempt).1)] =
        [probe (gen attempt).1] := by
      simp [probedSims, Ev.probedSim]
    by_cases hsim : probe (gen attempt).1 < ctx.similarityThreshold
    · refine ⟨(gen attempt).1, (gen attempt).2, false, ?_⟩
      simp only [if_pos hsim]
      refine ⟨?_, ?_, ?_, ?_⟩
      · rw [hgc1]
        simp
      · rw [hgc1]
      · rw [hgc1]; omega
      · rw [hps1]
        constructor
        · intro h
          simp at h
        · intro hall
          exact absurd (hall (probe (gen attempt).1) (by simp))
            (not_le.mpr hsim)
    · by_cases hlast : attempt = ctx.maxRegeneration - 1
      · refine ⟨(gen attempt).1, (gen attempt).2, true, ?_⟩
        simp only [if_neg hsim, if_pos hlast]
        refine ⟨?_, ?_, ?_, ?_⟩
        · rw [hgc1]
          simp
        · rw [hgc1]
        · rw [hgc1]; omega
        · rw [hps1]
          constructor
          · intro _ s hs
            simp at hs
            subst hs
            exact not_lt.mp hsim
          · intro _
            trivial
      · have hlt2 : attempt + 1 < ctx.maxRegeneration := by omega
        obtain ⟨q, level, warn, hres, hge, hle, hwarn⟩ :=
          ih (ctx.maxRegeneration - (attempt + 1)) (by omega) (attempt + 1)
            (regen + 1) rfl hlt2
        refine ⟨q, level, warn, ?_⟩
        simp only [if_neg hsim, if_neg hlast]
        have hgc : genCount (Ev.generate (gen attempt).1 ::
            Ev.probe (gen attempt).1 (probe (gen attempt).1) ::
            (generateWithRetryAux ctx gen probe (attempt + 1) (regen + 1)).2) =
            1 + genCount
              (generateWithRetryAux ctx gen probe (attempt + 1) (regen + 1)).2 := by
          simp [genCount, Ev.isGenerate]
          omega
        have hps : probedSims (Ev.generate (gen attempt).1 ::
            Ev.probe (gen attempt).1 (probe (gen attempt).1) ::
            (generateWithRetryAux ctx gen probe (attempt + 1) (regen + 1)).2) =
            probe (gen attempt).1 ::
              probedSims
                (generateWithRetryAux ctx gen probe (attempt + 1) (regen + 1)).2 := by
          simp [probedSims, Ev.probedSim]
        refine ⟨?_, ?_, ?_, ?_⟩
        · rw [hres]
          rw [hgc]
          have : regen + 1 + (genCount
              (generateWithRetryAux ctx gen probe (attempt + 1) (regen + 1)).2 - 1) =
              regen + (1 + genCount
              (generateWithRetryAux ctx gen probe (attempt + 1) (regen + 1)).2 - 1) := by
            omega
          rw [← this]
        · rw [hgc]; omega
        · rw [hgc]; omega
        · rw [hps, hwarn]
          constructor
          · intro hall s hs
            rcases List.mem_cons.mp hs with h | h
            · subst h; exact not_lt.mp hsim
            · exact hall s h
          · intro hall s hs
            exact hall s (List.mem_cons_of_mem _ hs)

/-- C1: for every run of the bounded regeneration loop with at least one
allowed attempt: the loop terminates with a result, the generator is
invoked at most `MAX_REGENERATION` times, the returned
`regeneration_count` is the number of generator invocations minus one,
and `similarity_warning` is true exactly when every probed similarity
was at or above the threshold. -/
theorem novelty_controller_contract {V : Type} (ctx : UseCaseCtx V)
    (gen : ℕ → Str × QuestionLevel) (probe : Str → ℚ)
    (hM : 1 ≤ ctx.maxRegeneration) :
    ∃ q level regen warn,
      (generate_with_retry ctx gen probe).1 = some (q, level, regen, warn) ∧
      1 ≤ genCount (generate_with_retry ctx gen probe).2 ∧
      genCount (generate_with_retry ctx gen probe).2 ≤ ctx.maxRegeneration ∧
      regen = genCount (generate_with_retry ctx gen probe).2 - 1 ∧
      (warn = true ↔
        ∀ s ∈ probedSims (generate_with_retry ctx gen probe).2,
          ctx.similarityThreshold ≤ s) := by
  obtain ⟨q, level, warn, hres, hge, hle, hwarn⟩ :=
    retryAux_correct ctx gen probe ctx.maxRegeneration 0 0 (by omega) (by omega)
  refine ⟨q, level,
    genCount (generate_with_retry ctx gen probe).2 - 1, warn, ?_, ?_, ?_, rfl, ?_⟩
  · simpa [generate_with_retry] using hres
  · simpa [generate_with_retry] using hge
  · simpa [generate_with_retry] using hle
  · simpa [generate_with_retry] using hwarn

/-- Concrete use-case configuration for witnesses: threshold 0.9 and
three attempts, over the trivial embedding space. -/
def ctx0 : UseCaseCtx Unit :=
  { ec := probeCtx, maxRegeneration := 3, similarityThreshold := mkRat 9 10,
    nowMs := 1737000000000 }

/-- A generator oracle that always proposes the same question. -/
def gen0 : ℕ → Str × QuestionLevel := fun _ => ("오늘 뭐 했어?".toList, ⟨2⟩)

/-- Witness for the novelty-controller theorem at a concrete
configuration with three attempts and a constant probe of 1/2. -/
theorem novelty_controller_contract_witness :
    ∃ q level regen warn,
      (generate_with_retry ctx0 gen0 (fun _ => 1 / 2)).1 =
        some (q, level, regen, warn) ∧
      1 ≤ genCount (generate_with_retry ctx0 gen0 (fun _ => 1 / 2)).2 ∧
      genCount (generate_with_retry ctx0 gen0 (fun _ => 1 / 2)).2 ≤
        ctx0.maxRegeneration ∧
      regen = genCount (generate_with_retry ctx0 gen0 (fun _ => 1 / 2)).2 - 1 ∧
      (warn = true ↔
        ∀ s ∈ probedSims (generate_with_retry ctx0 gen0 (fun _ => 1 / 2)).2,
          ctx0.similarityThreshold ≤ s) :=
  novelty_controller_contract ctx0 gen0 (fun _ => 1 / 2) (by decide)

/-! ### C3: retrieval before generation, store after generation -/

theorem retryAux_trace_only_gen_probe {V : Type} (ctx : UseCaseCtx V)
    (gen : ℕ → Str × QuestionLevel) (probe : Str → ℚ) :
    ∀ k attempt regen, ctx.maxRegeneration - attempt = k →
    ∀ e ∈ (generateWithRetryAux ctx gen probe attempt regen).2,
      e.isStore = false ∧ e.isRagSearch = false := by
  intro k
  induction k using Nat.strong_induction_on with
  | _ k ih =>
    intro attempt regen hk
    rw [generateWithRetryAux]
    by_cases hlt : attempt < ctx.maxRegeneration
    · rw [dif_pos hlt]
      by_cases hsim : probe (gen attempt).1 < ctx.similarityThreshold
      · simp only [if_pos hsim]
        intro e he
        rcases List.mem_cons.mp he with h | h
        · subst h; exact ⟨rfl, rfl⟩
        · rcases List.mem_cons.mp h with h2 | h2
          · subst h2; exact ⟨rfl, rfl⟩
          · simp at h2
      · by_cases hlast : attempt = ctx.maxRegeneration - 1
        · simp only [if_neg hsim, if_pos hlast]
          intro e he
          rcases List.mem_cons.mp he with h | h
          · subst h; exact ⟨rfl, rfl⟩
          · rcases List.mem_cons.mp h with h2 | h2
            · subst h2; exact ⟨rfl, rfl⟩
            · simp at h2
        · simp only [if_neg hsim, if_neg hlast]
          intro e he
          rcases List.mem_cons.mp he with h | h
          · subst h; exact ⟨rfl, rfl⟩
          · rcases List.mem_cons.mp h with h2 | h2
            · subst h2; exact ⟨rfl, rfl⟩
            · have hlt2 : attempt + 1 < ctx.maxRegeneration := by omega
              exact ih (ctx.maxRegeneration - (attempt + 1)) (by omega)
                (attempt + 1) (regen + 1) rfl e h2
    · rw [dif_neg hlt]
      intro e he
      simp at he

theorem trace_order_lemma (e0 e1 : Ev) (L T : List Ev)
    (h0g : e0.isGenerate = false) (h0s : e0.isStore = false)
    (h1g : e1.isGenerate = false) (h1r : e1.isRagSearch = true)
    (h1s : e1.isStore = false)
    (hL : ∀ e ∈ L, e.isStore = false)
    (hT : ∀ e ∈ T, e.isGenerate = false) :
    ∀ i (hi : i < (e0 :: e1 :: (L ++ T)).length),
      ((e0 :: e1 :: (L ++ T))[i]).isGenerate = true →
      (∃ j, ∃ hj : j < (e0 :: e1 :: (L ++ T)).length, j < i ∧
        ((e0 :: e1 :: (L ++ T))[j]).isRagSearch = true) ∧
      (∀ j (hj : j < (e0 :: e1 :: (L ++ T)).length), j ≤ i →
        ((e0 :: e1 :: (L ++ T))[j]).isStore = false) := by
  intro i hi hgen
  match i with
  | 0 =>
    rw [List.getElem_cons_zero] at hgen
    rw [h0g] at hgen
    cases hgen
  | 1 =>
    rw [List.getElem_cons_succ, List.getElem_cons_zero] at hgen
    rw [h1g] at hgen
    cases hgen
  | Nat.succ (Nat.succ n) =>
    have hn : n < L.length + T.length := by
      simp only [List.length_cons, List.length_append] at hi
      omega
    rw [List.getElem_cons_succ, List.getElem_cons_succ] at hgen
    have hnL : n < L.length := by
      by_contra hge
      push_neg at hge
      rw [List.getElem_append_right hge] at hgen
      rw [hT _ (List.getElem_mem _)] at hgen
      cases hgen
    constructor
    · refine ⟨1, by simp, by omega, ?_⟩
      rw [List.getElem_cons_succ, List.getElem_cons_zero]
      exact h1r
    · intro j hj hji
      match j with
      | 0 => rw [List.getElem_cons_zero]; exact h0s
      | 1 => rw [List.getElem_cons_succ, List.getElem_cons_zero]; exact h1s
      | Nat.succ (Nat.succ m) =>
        have hmL : m < L.length := by omega
        rw [List.getElem_cons_succ, List.getElem_cons_succ,
          List.getElem_append_left hmL]
        exact hL _ (List.getElem_mem _)

/-- C3: in every Personal or Family RAG execution, every generator
invocation in the trace is strictly preceded by the RAG retrieval call
(`search_by_member` / `search_by_family`), and no store call happens at
or before any generator invocation — hence the store call is strictly
after the last generator invocation, and the stored base QA is never
part of its own retrieval context. -/
theorem rag_retrieval_before_generation_store_after {V : Type}
    (variant : RagVariant) (ctx : UseCaseCtx V) (col : Collection V)
    (inp : GenQuestionInput) (gen : ℕ → Str × QuestionLevel)
    (lookupFails : Bool) :
    ∀ i (hi : i <
      (RAGQuestionUseCase.execute variant ctx col inp gen lookupFails).2.2.length),
      (((RAGQuestionUseCase.execute variant ctx col inp gen
        lookupFails).2.2)[i]).isGenerate = true →
      (∃ j, ∃ hj : j <
          (RAGQuestionUseCase.execute variant ctx col inp gen
            lookupFails).2.2.length, j < i ∧
        (((RAGQuestionUseCase.execute variant ctx col inp gen
          lookupFails).2.2)[j]).isRagSearch = true) ∧
      (∀ j (hj : j <
          (RAGQuestionUseCase.execute variant ctx col inp gen
            lookupFails).2.2.length), j ≤ i →
        (((RAGQuestionUseCase.execute variant ctx col inp gen
          lookupFails).2.2)[j]).isStore = false) := by
  have hLoop := retryAux_trace_only_gen_probe ctx gen
    (fun q => search_similar_questions ctx.ec col q inp.member_id)
    ctx.maxRegeneration 0 0 rfl
  cases variant with
  | personal =>
    cases hl : (generate_with_retry ctx gen
        (fun q => search_similar_questions ctx.ec col q inp.member_id)).1 with
    | none =>
      have htr : (RAGQuestionUseCase.execute RagVariant.personal ctx col inp
          gen lookupFails).2.2 =
          Ev.recentByMember inp.member_id :: Ev.searchMember inp.member_id ::
            ((generate_with_retry ctx gen
              (fun q => search_similar_questions ctx.ec col q
                inp.member_id)).2 ++ []) := by
        simp only [RAGQuestionUseCase.execute, generate_with_retry] at hl ⊢
        rw [hl]
        rw [List.append_nil]
      rw [htr]
      exact trace_order_lemma _ _ _ _ rfl rfl rfl rfl rfl
        (fun e he => (hLoop e he).1) (fun e he => by simp at he)
    | some r =>
      obtain ⟨q, level, regen, warn⟩ := r
      have htr : (RAGQuestionUseCase.execute RagVariant.personal ctx col inp
          gen lookupFails).2.2 =
          Ev.recentByMember inp.member_id :: Ev.searchMember inp.member_id ::
            ((generate_with_retry ctx gen
              (fun q => search_similar_questions ctx.ec col q
                inp.member_id)).2 ++
              [Ev.store (create_base_qa inp (resolve_role_label
                (get_role_label col inp.member_id lookupFails)))]) := by
        simp only [RAGQuestionUseCase.execute, generate_with_retry] at hl ⊢
        rw [hl]
      rw [htr]
      exact trace_order_lemma _ _ _ _ rfl rfl rfl rfl rfl
        (fun e he => (hLoop e he).1)
        (fun e he => by
          simp only [List.mem_singleton] at he
          subst he
          rfl)
  | family =>
    cases hl : (generate_with_retry ctx gen
        (fun q => search_similar_questions ctx.ec col q inp.member_id)).1 with
    | none =>
      have htr : (RAGQuestionUseCase.execute RagVariant.family ctx col inp
          gen lookupFails).2.2 =
          Ev.recentByMember inp.member_id :: Ev.searchFamily inp.family_id ::
            ((generate_with_retry ctx gen
              (fun q => search_similar_questions ctx.ec col q
                inp.member_id)).2 ++ []) := by
        simp only [RAGQuestionUseCase.execute, generate_with_retry] at hl ⊢
        rw [hl]
        rw [List.append_nil]
      rw [htr]
      exact trace_order_lemma _ _ _ _ rfl rfl rfl rfl rfl
        (fun e he => (hLoop e he).1) (fun e he => by simp at he)
    | some r =>
      obtain ⟨q, level, regen, warn⟩ := r
      have htr : (RAGQuestionUseCase.execute RagVariant.family ctx col inp
          gen lookupFails).2.2 =
          Ev.recentByMember inp.member_id :: Ev.searchFamily inp.family_id ::
            ((generate_with_retry ctx gen
              (fun q => search_similar_questions ctx.ec col q
                inp.member_id)).2 ++
              [Ev.store (create_base_qa inp (resolve_role_label
                (get_role_label col inp.member_id lookupFails)))]) := by
        simp only [RAGQuestionUseCase.execute, generate_with_retry] at hl ⊢
        rw [hl]
      rw [htr]
      exact trace_order_lemma _ _ _ _ rfl rfl rfl rfl rfl
        (fun e he => (hLoop e he).1)
        (fun e he => by
          simp only [List.mem_singleton] at he
          subst he
          rfl)

/-- Concrete personal-question input for witnesses. -/
def inp0 : GenQuestionInput :=
  { family_id := "F".toList, member_id := "m".toList,
    role_label := "첫째 딸".toList, base_question := "오늘 뭐 했어?".toList,
    base_answer := "친구들과 놀았어요".toList,
    answered_at := { ts := 100, year := 2026, month := 1, day := 20 } }

unseal List.merge List.mergeSort generateWithRetryAux natDigits in
/-- Witness for the ordering theorem: a concrete personal execution on an
empty store, checked at the generator invocation at index 2 of the
trace. -/
theorem rag_retrieval_before_generation_store_after_witness :
    (∃ j, ∃ hj : j <
        (RAGQuestionUseCase.execute RagVariant.personal ctx0
          ([] : Collection Unit) inp0 gen0 false).2.2.length, j < 2 ∧
      (((RAGQuestionUseCase.execute RagVariant.personal ctx0
        ([] : Collection Unit) inp0 gen0 false).2.2)[j]).isRagSearch = true) ∧
    (∀ j (hj : j <
        (RAGQuestionUseCase.execute RagVariant.personal ctx0
          ([] : Collection Unit) inp0 gen0 false).2.2.length), j ≤ 2 →
      (((RAGQuestionUseCase.execute RagVariant.personal ctx0
        ([] : Collection Unit) inp0 gen0 false).2.2)[j]).isStore = false) :=
  rag_retrieval_before_generation_store_after RagVariant.personal ctx0 []
    inp0 gen0 false 2 (by decide) (by decide)

/-! ### C6: the Family Recent use case never stores -/

/-- C6: every Family Recent execution leaves the collection unchanged and
its trace contains no store call: the use case only reads and returns the
generated question without persisting anything. -/
theorem family_recent_never_stores {V : Type} (ctx : UseCaseCtx V)
    (col : Collection V) (inp : FamilyRecentInput)
    (gen : ℕ → Str × QuestionLevel) :
    (FamilyRecentQuestionUseCase.execute ctx col inp gen).2.1 = col ∧
    ∀ e ∈ (FamilyRecentQuestionUseCase.execute ctx col inp gen).2.2,
      e.isStore = false := by
  have hLoop := retryAux_trace_only_gen_probe ctx gen
    (fun q => search_similar_questions ctx.ec col q inp.target_member_id)
    ctx.maxRegeneration 0 0 rfl
  cases hl : (generate_with_retry ctx gen
      (fun q => search_similar_questions ctx.ec col q
        inp.target_member_id)).1 with
  | none =>
    simp only [generate_with_retry] at hl
    have hcol2 : (FamilyRecentQuestionUseCase.execute ctx col inp gen).2.1 =
        col := by
      simp only [FamilyRecentQuestionUseCase.execute, generate_with_retry]
      rw [hl]
    have htr : (FamilyRecentQuestionUseCase.execute ctx col inp gen).2.2 =
        Ev.recentByFamily inp.family_id :: (generate_with_retry ctx gen
          (fun q => search_similar_questions ctx.ec col q
            inp.target_member_id)).2 := by
      simp only [FamilyRecentQuestionUseCase.execute, generate_with_retry]
      rw [hl]
    refine ⟨hcol2, ?_⟩
    intro e he
    rw [htr] at he
    rcases List.mem_cons.mp he with h | h
    · subst h; rfl
    · exact (hLoop e (by simpa [generate_with_retry] using h)).1
  | some r =>
    obtain ⟨q, level, regen, warn⟩ := r
    simp only [generate_with_retry] at hl
    have hcol2 : (FamilyRecentQuestionUseCase.execute ctx col inp gen).2.1 =
        col := by
      simp only [FamilyRecentQuestionUseCase.execute, generate_with_retry]
      rw [hl]
    have htr : (FamilyRecentQuestionUseCase.execute ctx col inp gen).2.2 =
        Ev.recentByFamily inp.family_id :: (generate_with_retry ctx gen
          (fun q => search_similar_questions ctx.ec col q
            inp.target_member_id)).2 := by
      simp only [FamilyRecentQuestionUseCase.execute, generate_with_retry]
      rw [hl]
    refine ⟨hcol2, ?_⟩
    intro e he
    rw [htr] at he
    rcases List.mem_cons.mp he with h | h
    · subst h; rfl
    · exact (hLoop e (by simpa [generate_with_retry] using h)).1

/-- Concrete family-recent input for witnesses. -/
def finp0 : FamilyRecentInput :=
  { family_id := "F".toList, target_member_id := "m".toList,
    target_role_label := "아빠".toList, member_ids := [] }

unseal List.merge List.mergeSort generateWithRetryAux natDigits in
/-- Witness for the family-recent theorem: a concrete execution on an
empty store leaves it empty, and the retrieval event at the head of its
trace is not a store call. -/
theorem family_recent_never_stores_witness :
    (FamilyRecentQuestionUseCase.execute ctx0 ([] : Collection Unit) finp0
      gen0).2.1 = ([] : Collection Unit) ∧
    (Ev.recentByFamily "F".toList).isStore = false :=
  ⟨(family_recent_never_stores ctx0 [] finp0 gen0).1,
   (family_recent_never_stores ctx0 [] finp0 gen0).2
     (Ev.recentByFamily "F".toList) (by decide)⟩

/-! ### C9: where the persisted role label comes from -/

/-- C9 (amended): in every Personal or Family RAG execution that
completes, exactly one record is appended, and its role_label is not the
DTO role_label: it is the role_label of the member's most recent stored
record (via `get_recent_questions_by_member` with limit 1) when that
label is non-empty, and the literal "멤버" when the member has no
records, the most recent label is empty, or the lookup fails; the whole
execution result is independent of the DTO role_label field. -/
theorem rag_role_label_resolution {V : Type} (variant : RagVariant)
    (ctx : UseCaseCtx V) (col : Collection V) (inp : GenQuestionInput)
    (gen : ℕ → Str × QuestionLevel) (lookupFails : Bool)
    (hM : 1 ≤ ctx.maxRegeneration) :
    (∃ e : ChromaEntry V,
      (RAGQuestionUseCase.execute variant ctx col inp gen
        lookupFails).2.1 = col ++ [e] ∧
      e.role_label =
        (if lookupFails then "멤버".toList
         else
           match (get_recent_questions_by_member col inp.member_id 1).head? with
           | none => "멤버".toList
           | some d =>
             if d.role_label = [] then "멤버".toList else d.role_label)) ∧
    (∀ r : Str, RAGQuestionUseCase.execute variant ctx col
        { inp with role_label := r } gen lookupFails =
      RAGQuestionUseCase.execute variant ctx col inp gen lookupFails) := by
  obtain ⟨q, level, regen, warn, hres, -, -, -, -⟩ :=
    novelty_controller_contract ctx gen
      (fun q => search_similar_questions ctx.ec col q inp.member_id) hM
  constructor
  · refine ⟨storeEntry ctx.ec ctx.nowMs (create_base_qa inp
      (resolve_role_label (get_role_label col inp.member_id lookupFails))),
      ?_, ?_⟩
    · simp only [RAGQuestionUseCase.execute, generate_with_retry,
        ChromaVectorStore.store] at hres ⊢
      rw [hres]
    · show resolve_role_label (get_role_label col inp.member_id lookupFails) = _
      unfold resolve_role_label get_role_label
      by_cases hlf : lookupFails
      · simp [hlf]
      · simp only [hlf, if_false, Bool.false_eq_true]
        cases hrec : get_recent_questions_by_member col inp.member_id 1 with
        | nil => simp
        | cons d ds => simp
  · intro r
    rfl

/-- A collection whose single record for member `m` carries an empty
role label. -/
def col9 : Collection Unit :=
  [{ id := "F_m_0".toList, embedding := (), document := "d".toList,
     family_id := "F".toList, member_id := "m".toList,
     role_label := [],
     answered_at := { ts := 0, year := 2026, month := 1, day := 1 } }]

unseal Rat.sub List.merge List.mergeSort generateWithRetryAux natDigits pySplit in
/-- C9 counterexample: when the most recent stored record of the member
has an empty role label, the persisted base QA gets the literal "멤버",
not the role label of that record, so the role label is not always taken
from the most recent stored record. -/
theorem rag_role_label_empty_counterexample :
    ((RAGQuestionUseCase.execute RagVariant.personal ctx0 col9 inp0 gen0
      false).2.1.getLast?.map (fun e => e.role_label)) =
        some "멤버".toList ∧
    (get_recent_questions_by_member col9 "m".toList 1).map
      (fun d => d.role_label) = [([] : Str)] ∧
    "멤버".toList ≠ ([] : Str) :=
  ⟨by decide, by decide, by decide⟩

unseal Rat.sub List.merge List.mergeSort generateWithRetryAux natDigits pySplit in
/-- Witness for the role-label theorem at the concrete execution over
`col9`. -/
theorem rag_role_label_resolution_witness :
    (∃ e : ChromaEntry Unit,
      (RAGQuestionUseCase.execute RagVariant.personal ctx0 col9 inp0 gen0
        false).2.1 = col9 ++ [e] ∧
      e.role_label =
        (if false then "멤버".toList
         else
           match (get_recent_questions_by_member col9 inp0.member_id
             1).head? with
           | none => "멤버".toList
           | some d =>
             if d.role_label = [] then "멤버".toList else d.role_label)) ∧
    (∀ r : Str, RAGQuestionUseCase.execute RagVariant.personal ctx0 col9
        { inp0 with role_label := r } gen0 false =
      RAGQuestionUseCase.execute RagVariant.personal ctx0 col9 inp0 gen0
        false) :=
  rag_role_label_resolution RagVariant.personal ctx0 col9 inp0 gen0 false
    (by decide)

/-! ### C10: parsing is a partial inverse of rendering -/

theorem pySplit_no_occurrence (sep : Str) (_hsep : sep ≠ []) :
    ∀ l : Str, ¬ sep <:+: l → pySplit sep l = [l] := by
  intro l
  induction l with
  | nil =>
    intro _
    rw [pySplit]
  | cons c rest ih =>
    intro hno
    rw [pySplit]
    rw [dif_neg (by
      rintro ⟨-, hpre⟩
      have : sep <+: c :: rest := by simpa using hpre
      obtain ⟨t, ht⟩ := this
      exact hno ⟨[], t, by simpa using ht⟩)]
    have hrest : pySplit sep rest = [rest] :=
      ih (fun h => hno (List.infix_cons h))
    rw [hrest]

theorem pySplit_split_at_first (sep : Str) (hsep : sep ≠ []) :
    ∀ (a b : Str),
      (∀ i, i < a.length →
        ¬ sep.isPrefixOf ((a ++ (sep ++ b)).drop i) = true) →
      pySplit sep (a ++ (sep ++ b)) = a :: pySplit sep b := by
  intro a
  induction a with
  | nil =>
    intro b _
    simp only [List.nil_append]
    cases hs : sep with
    | nil => exact absurd hs hsep
    | cons s sep' =>
      rw [List.cons_append, pySplit]
      rw [dif_pos ⟨by simp, by
        simp only [← List.cons_append]
        simp [List.isPrefixOf_iff_prefix, List.prefix_append]⟩]
      simp only [List.length_cons, Nat.add_sub_cancel]
      rw [List.drop_left]
  | cons c a' ih =>
    intro b hno
    have h0 := hno 0 (by simp)
    simp only [List.drop_zero] at h0
    rw [List.cons_append, pySplit]
    rw [dif_neg (by
      rintro ⟨-, hpre⟩
      exact absurd (by simpa using hpre) h0)]
    have hrec := ih b (fun i hi => by
      have := hno (i + 1) (by simp only [List.length_cons]; omega)
      simpa using this)
    rw [hrec]

theorem infix_append_cases {M X Y : Str} (h : M <:+: (X ++ Y)) :
    M <:+: X ∨ M <:+: Y ∨
      ∃ k, 0 < k ∧ k < M.length ∧ M.take k <:+ X ∧ M.drop k <+: Y := by
  obtain ⟨s, t, hst⟩ := h
  rw [List.append_assoc] at hst
  rcases List.append_eq_append_iff.mp hst with ⟨a2, hX, hMt⟩ | ⟨c2, hs, hY⟩
  · rcases List.append_eq_append_iff.mp hMt with ⟨b2, ha2, ht⟩ | ⟨d2, hM, hY2⟩
    · left
      exact ⟨s, b2, by rw [hX, ha2]; simp [List.append_assoc]⟩
    · by_cases ha0 : a2 = []
      · right; left
        subst ha0
        simp only [List.nil_append] at hM
        exact ⟨[], t, by rw [hY2, hM]; simp⟩
      · by_cases hd0 : d2 = []
        · left
          subst hd0
          rw [List.append_nil] at hM
          exact ⟨s, [], by rw [hX, hM, List.append_nil]⟩
        · right; right
          refine ⟨a2.length, ?_, ?_, ?_, ?_⟩
          · cases a2 with
            | nil => exact absurd rfl ha0
            | cons _ _ => simp
          · rw [hM, List.length_append]
            cases d2 with
            | nil => exact absurd rfl hd0
            | cons _ _ => simp
          · rw [hM, List.take_left]
            exact ⟨s, hX.symm⟩
          · rw [hM, List.drop_left]
            exact ⟨t, hY2.symm⟩
  · right; left
    exact ⟨c2, t, by rw [hY]; simp [List.append_assoc]⟩

theorem not_infix_skip_left {M X Y : Str} {c : Char}
    (hhead : M.head? = some c) (hc : c ∉ X) (h : M <:+: (X ++ Y)) :
    M <:+: Y := by
  have hcM : ∀ k, k < M.length → c ∈ M.take k ∨ k = 0 := by
    intro k hk
    cases M with
    | nil => simp at hhead
    | cons m M2 =>
      simp only [List.head?_cons, Option.some_inj] at hhead
      cases k with
      | zero => exact Or.inr rfl
      | succ k2 =>
        left
        rw [List.take_succ_cons]
        exact hhead ▸ List.mem_cons_self _ _
  rcases infix_append_cases h with h1 | h1 | ⟨k, hk0, hkM, hsuf, hpre⟩
  · exfalso
    have hcm : c ∈ M := by
      cases M with
      | nil => simp at hhead
      | cons m M2 =>
        simp only [List.head?_cons, Option.some_inj] at hhead
        exact hhead ▸ List.mem_cons_self _ _
    exact hc (h1.subset hcm)
  · exact h1
  · exfalso
    rcases hcM k hkM with hmem | hzero
    · exact hc (hsuf.subset hmem)
    · omega

theorem no_early_occurrence (sep : Str) (hsep : sep ≠ []) (a b : Str)
    (h : ¬ sep <:+: (a ++ sep.dropLast)) :
    ∀ i, i < a.length →
      ¬ sep.isPrefixOf ((a ++ (sep ++ b)).drop i) = true := by
  intro i hi hpre
  apply h
  have hpre2 : sep <+: (a ++ (sep ++ b)).drop i := by simpa using hpre
  obtain ⟨r, hr⟩ := hpre2
  have hXi : a ++ (sep ++ b) =
      (a ++ (sep ++ b)).take i ++ (sep ++ r) := by
    rw [hr]
    exact (List.take_append_drop i (a ++ (sep ++ b))).symm
  have hleni : ((a ++ (sep ++ b)).take i).length = i := by
    rw [List.length_take]
    have : i ≤ (a ++ (sep ++ b)).length := by
      rw [List.length_append]
      omega
    omega
  have htake : (a ++ (sep ++ b)).take (i + sep.length) =
      (a ++ (sep ++ b)).take i ++ sep := by
    obtain ⟨T, hT, hTlen⟩ : ∃ T, a ++ (sep ++ b) = T ++ (sep ++ r) ∧
        T.length = i := ⟨_, hXi, hleni⟩
    rw [hT, ← hTlen, List.take_append, List.take_left, List.take_left]
  obtain ⟨z, hz⟩ : ∃ z, sep = sep.dropLast ++ [z] :=
    ⟨sep.getLast hsep, (List.dropLast_append_getLast hsep).symm⟩
  have hY : (a ++ (sep ++ b)).take (a.length + sep.dropLast.length) =
      a ++ sep.dropLast := by
    have hsplit : a ++ (sep ++ b) =
        (a ++ sep.dropLast) ++ ([z] ++ b) := by
      conv_lhs => rw [hz]
      simp [List.append_assoc]
    rw [hsplit]
    rw [← List.length_append]
    rw [List.take_left]
  have hsl : 0 < sep.length := List.length_pos.mpr hsep
  have hmono : (a ++ (sep ++ b)).take (i + sep.length) <+:
      (a ++ (sep ++ b)).take (a.length + sep.dropLast.length) := by
    rw [List.take_isPrefix_take]
    left
    rw [List.length_dropLast]
    omega
  obtain ⟨w, hw⟩ := hmono
  rw [htake, hY] at hw
  exact ⟨(a ++ (sep ++ b)).take i, w, by rw [← hw]⟩

theorem head_eq_of_ne_nil {l1 l2 : Str} (h : l1 <+: l2) (hne : l1 ≠ []) :
    l2.head? = l1.head? := by
  obtain ⟨t, ht⟩ := h
  subst ht
  cases l1 with
  | nil => exact absurd rfl hne
  | cons x xs => rfl

theorem digitChar_isDigit (k : ℕ) (hk : k < 10) :
    (digitChar k).isDigit = true := by
  interval_cases k <;> decide

theorem natDigits_isDigit (n : ℕ) : ∀ c ∈ natDigits n, c.isDigit = true := by
  induction n using Nat.strong_induction_on with
  | _ n ih =>
    intro c hc
    rw [natDigits] at hc
    by_cases h : n < 10
    · rw [dif_pos h] at hc
      simp only [List.mem_singleton] at hc
      subst hc
      exact digitChar_isDigit n h
    · rw [dif_neg h] at hc
      rcases List.mem_append.mp hc with h2 | h2
      · exact ih (n / 10) (Nat.div_lt_self (by omega) (by omega)) c h2
      · simp only [List.mem_singleton] at h2
        subst h2
        exact digitChar_isDigit (n % 10) (Nat.mod_lt _ (by omega))

theorem batchim_not_mem_natDigits (n : ℕ) : '받' ∉ natDigits n := by
  intro h
  have := natDigits_isDigit n _ h
  simp at this

theorem qMarker_no_early (y m d : ℕ) (role : Str)
    (hrole : ¬ qMarker <:+: role) :
    ¬ qMarker <:+:
      ((natDigits y ++ ("년 ".toList ++ (natDigits m ++ ("월 ".toList ++
        (natDigits d ++ ("일에 ".toList ++ (role ++ "이(가) ".toList))))))) ++
        qMarker.dropLast) := by
  intro h
  simp only [List.append_assoc] at h
  have hqh : qMarker.head? = some '받' := rfl
  have h1 := not_infix_skip_left hqh (batchim_not_mem_natDigits y) h
  have h2 := not_infix_skip_left hqh (by decide) h1
  have h3 := not_infix_skip_left hqh (batchim_not_mem_natDigits m) h2
  have h4 := not_infix_skip_left hqh (by decide) h3
  have h5 := not_infix_skip_left hqh (batchim_not_mem_natDigits d) h4
  have h6 := not_infix_skip_left hqh (by decide) h5
  rcases infix_append_cases h6 with hr | hC | ⟨k, hk0, hkM, _, hdrop⟩
  · exact hrole hr
  · exact absurd hC (by decide)
  · have hkM6 : k < 6 := hkM
    have hfact : ∀ k, k < 6 → 0 < k →
        ¬ (qMarker.drop k <+: ("이(가) ".toList ++ qMarker.dropLast)) := by
      decide
    exact hfact k hkM6 hk0 hdrop

theorem qMarker_not_in_tail (Q A : Str)
    (hq : ¬ qMarker <:+: Q) (ha : ¬ qMarker <:+: A) :
    ¬ qMarker <:+:
      (" ".toList ++ (Q ++ (aMarker ++ (" ".toList ++ A)))) := by
  intro h
  have hqh : qMarker.head? = some '받' := rfl
  have h1 := not_infix_skip_left hqh (by decide) h
  rcases infix_append_cases h1 with h2 | h2 | ⟨k, hk0, hkM, _, hdrop⟩
  · exact hq h2
  · have h3 := not_infix_skip_left hqh (by decide) h2
    have h4 := not_infix_skip_left hqh (by decide) h3
    exact ha h4
  · have hkM6 : k < 6 := hkM
    have hne : qMarker.drop k ≠ [] := by
      intro hnil
      have := congrArg List.length hnil
      simp only [List.length_drop, List.length_nil] at this
      have hq6 : qMarker.length = 6 := rfl
      omega
    have hh : (aMarker ++ (" ".toList ++ A)).head? =
        (qMarker.drop k).head? := head_eq_of_ne_nil hdrop hne
    have hh2 : (qMarker.drop k).head? = some '\n' := by
      rw [← hh]
      rfl
    have hfact : ∀ k, k < 6 → 0 < k →
        ¬ ((qMarker.drop k).head? = some '\n') := by
      decide
    exact hfact k hkM6 hk0 hh2

theorem aMarker_no_early (Q : Str) (hq : ¬ aMarker <:+: Q) :
    ¬ aMarker <:+: ((" ".toList ++ Q) ++ aMarker.dropLast) := by
  intro h
  simp only [List.append_assoc] at h
  have hah : aMarker.head? = some '\n' := rfl
  have h1 := not_infix_skip_left hah (by decide) h
  rcases infix_append_cases h1 with h2 | h2 | ⟨k, hk0, hkM, _, hdrop⟩
  · exact hq h2
  · exact absurd h2 (by decide)
  · have hkM4 : k < 4 := hkM
    have hfact : ∀ k, k < 4 → 0 < k →
        ¬ (aMarker.drop k <+: aMarker.dropLast) := by
      decide
    exact hfact k hkM4 hk0 hdrop

theorem aMarker_not_in_answer_tail (A : Str) (ha : ¬ aMarker <:+: A) :
    ¬ aMarker <:+: (" ".toList ++ A) := by
  intro h
  have hah : aMarker.head? = some '\n' := rfl
  exact ha (not_infix_skip_left hah (by decide) h)

theorem pyStrip_cons_space (l : Str) : pyStrip (' ' :: l) = pyStrip l := by
  simp [pyStrip, List.dropWhile_cons, isPySpace]

/-- C10 (amended): for every QA record whose role_label and answer do not
contain the substring "받은 질문:" and whose question and answer do not
contain "\n답변:" (and whose question does not contain "받은 질문:"),
parsing the rendered embedding text recovers the original question and
answer up to stripping of leading/trailing whitespace; and for any text
where either marker is absent, or where the two-way split on "\n답변:"
does not produce exactly two parts, the parser returns the whole text as
the question and an empty answer. -/
theorem parse_embedding_roundtrip (doc : QADocument)
    (hrole : ¬ qMarker <:+: doc.role_label)
    (hq1 : ¬ qMarker <:+: doc.question)
    (hq2 : ¬ aMarker <:+: doc.question)
    (ha1 : ¬ qMarker <:+: doc.answer)
    (ha2 : ¬ aMarker <:+: doc.answer) :
    parse_embedding_text (to_embedding_text doc) =
      (pyStrip doc.question, pyStrip doc.answer) ∧
    (∀ text : Str, ¬ (qMarker <:+: text ∧ aMarker <:+: text) →
      parse_embedding_text text = (text, [])) ∧
    (∀ text : Str,
      (pySplit aMarker ((pySplit qMarker text).getD 1 [])).length ≠ 2 →
      parse_embedding_text text = (text, [])) := by
  refine ⟨?_, ?_, ?_⟩
  · have htext : to_embedding_text doc =
        (natDigits doc.answered_at.year ++ ("년 ".toList ++
          (natDigits doc.answered_at.month ++ ("월 ".toList ++
          (natDigits doc.answered_at.day ++ ("일에 ".toList ++
          (doc.role_label ++ "이(가) ".toList))))))) ++
        (qMarker ++ (" ".toList ++ (doc.question ++ (aMarker ++
          (" ".toList ++ doc.answer))))) := by
      simp [to_embedding_text, QADocument.get_date_parts, List.append_assoc]
    have hnoearly := no_early_occurrence qMarker (by decide)
      (natDigits doc.answered_at.year ++ ("년 ".toList ++
        (natDigits doc.answered_at.month ++ ("월 ".toList ++
        (natDigits doc.answered_at.day ++ ("일에 ".toList ++
        (doc.role_label ++ "이(가) ".toList)))))))
      (" ".toList ++ (doc.question ++ (aMarker ++
        (" ".toList ++ doc.answer))))
      (qMarker_no_early doc.answered_at.year doc.answered_at.month
        doc.answered_at.day doc.role_label hrole)
    have hsplit1 := pySplit_split_at_first qMarker (by decide)
      (natDigits doc.answered_at.year ++ ("년 ".toList ++
        (natDigits doc.answered_at.month ++ ("월 ".toList ++
        (natDigits doc.answered_at.day ++ ("일에 ".toList ++
        (doc.role_label ++ "이(가) ".toList)))))))
      (" ".toList ++ (doc.question ++ (aMarker ++
        (" ".toList ++ doc.answer)))) hnoearly
    have hSno := qMarker_not_in_tail doc.question doc.answer hq1 ha1
    have hsplitS := pySplit_no_occurrence qMarker (by decide) _ hSno
    have hSassoc : " ".toList ++ (doc.question ++ (aMarker ++
        (" ".toList ++ doc.answer))) =
        (" ".toList ++ doc.question) ++ (aMarker ++
          (" ".toList ++ doc.answer)) := by
      simp [List.append_assoc]
    have hnoearly2 := no_early_occurrence aMarker (by decide)
      (" ".toList ++ doc.question) (" ".toList ++ doc.answer)
      (aMarker_no_early doc.question hq2)
    have hsplit2 := pySplit_split_at_first aMarker (by decide)
      (" ".toList ++ doc.question) (" ".toList ++ doc.answer) hnoearly2
    have hsplitA := pySplit_no_occurrence aMarker (by decide) _
      (aMarker_not_in_answer_tail doc.answer ha2)
    have hg1 : qMarker <:+: to_embedding_text doc := by
      rw [htext]
      refine ⟨natDigits doc.answered_at.year ++ ("년 ".toList ++
        (natDigits doc.answered_at.month ++ ("월 ".toList ++
        (natDigits doc.answered_at.day ++ ("일에 ".toList ++
        (doc.role_label ++ "이(가) ".toList)))))),
        " ".toList ++ (doc.question ++ (aMarker ++
          (" ".toList ++ doc.answer))), ?_⟩
      simp [List.append_assoc]
    have hg2 : aMarker <:+: to_embedding_text doc := by
      rw [htext]
      refine ⟨(natDigits doc.answered_at.year ++ ("년 ".toList ++
        (natDigits doc.answered_at.month ++ ("월 ".toList ++
        (natDigits doc.answered_at.day ++ ("일에 ".toList ++
        (doc.role_label ++ "이(가) ".toList))))))) ++
        (qMarker ++ (" ".toList ++ doc.question)),
        " ".toList ++ doc.answer, ?_⟩
      simp [List.append_assoc]
    simp only [parse_embedding_text]
    rw [if_pos ⟨hg1, hg2⟩]
    rw [htext]
    rw [hsplit1, hsplitS]
    show (match pySplit aMarker (" ".toList ++ (doc.question ++ (aMarker ++
        (" ".toList ++ doc.answer)))) with
      | [q, a] => (pyStrip q, pyStrip a)
      | _ => ((natDigits doc.answered_at.year ++ ("년 ".toList ++
          (natDigits doc.answered_at.month ++ ("월 ".toList ++
          (natDigits doc.answered_at.day ++ ("일에 ".toList ++
          (doc.role_label ++ "이(가) ".toList))))))) ++
        (qMarker ++ (" ".toList ++ (doc.question ++ (aMarker ++
          (" ".toList ++ doc.answer))))), [])) =
      (pyStrip doc.question, pyStrip doc.answer)
    rw [hSassoc, hsplit2, hsplitA]
    show (pyStrip (' ' :: doc.question), pyStrip (' ' :: doc.answer)) =
      (pyStrip doc.question, pyStrip doc.answer)
    rw [pyStrip_cons_space, pyStrip_cons_space]
  · intro text hcond
    simp only [parse_embedding_text]
    rw [if_neg hcond]
  · intro text hlen
    by_cases hcond : qMarker <:+: text ∧ aMarker <:+: text
    · simp only [parse_embedding_text]
      rw [if_pos hcond]
      cases hsp : pySplit aMarker ((pySplit qMarker text).getD 1 []) with
      | nil => rfl
      | cons x xs =>
        cases xs with
        | nil => rfl
        | cons y ys =>
          cases ys with
          | nil =>
            exfalso
            rw [hsp] at hlen
            simp at hlen
          | cons z zs => rfl
    · simp only [parse_embedding_text]
      rw [if_neg hcond]

/-- A record whose answer contains the question marker: the claim's
hypotheses (no markers in the question, no answer marker in the answer)
hold, yet parsing does not recover the answer. -/
def doc10 : QADocument :=
  { family_id := "F".toList, member_id := "m".toList,
    role_label := "r".toList, question := "Q".toList,
    answer := "받은 질문:".toList,
    answered_at := { ts := 0, year := 1, month := 1, day := 1 } }

set_option maxRecDepth 100000 in
set_option maxHeartbeats 4000000 in
unseal pySplit natDigits in
/-- C10 counterexample: for `doc10` the question contains neither marker
and the answer does not contain "\n답변:", yet parsing the rendered text
yields the empty answer instead of the original "받은 질문:" — the
round-trip claim fails when the answer contains "받은 질문:". -/
theorem parse_embedding_roundtrip_counterexample :
    (¬ qMarker <:+: doc10.question) ∧ (¬ aMarker <:+: doc10.question) ∧
    (¬ aMarker <:+: doc10.answer) ∧
    parse_embedding_text (to_embedding_text doc10) =
      ("Q".toList, []) ∧
    pyStrip doc10.question = "Q".toList ∧
    pyStrip doc10.answer = "받은 질문:".toList ∧
    ([] : Str) ≠ "받은 질문:".toList :=
  ⟨by decide, by decide, by decide, by decide, by decide, by decide,
   by decide⟩

/-- A well-behaved record for the round-trip witness. -/
def doc0 : QADocument :=
  { family_id := "F".toList, member_id := "m".toList,
    role_label := "아빠".toList, question := "오늘 뭐 했어?".toList,
    answer := "친구들과 놀았어요".toList,
    answered_at := { ts := 100, year := 2026, month := 1, day := 20 } }

/-- Witness for the round-trip theorem at the concrete record `doc0`. -/
theorem parse_embedding_roundtrip_witness :
    (¬ qMarker <:+: doc0.role_label) ∧
    (¬ qMarker <:+: doc0.question) ∧
    (¬ aMarker <:+: doc0.question) ∧
    (¬ qMarker <:+: doc0.answer) ∧
    (¬ aMarker <:+: doc0.answer) ∧
    (parse_embedding_text (to_embedding_text doc0) =
      (pyStrip doc0.question, pyStrip doc0.answer) ∧
    (∀ text : Str, ¬ (qMarker <:+: text ∧ aMarker <:+: text) →
      parse_embedding_text text = (text, [])) ∧
    (∀ text : Str,
      (pySplit aMarker ((pySplit qMarker text).getD 1 [])).length ≠ 2 →
      parse_embedding_text text = (text, []))) :=
  ⟨by decide, by decide, by decide, by decide, by decide,
   parse_embedding_roundtrip doc0 (by decide) (by decide) (by decide)
     (by decide) (by decide)⟩
